import Mathlib

/-!
Verification development for the flow-dashboard repository.

The repository contains three variants of the `EmailDashboard` React component
plus a PHP mail endpoint.  We shallowly embed:

* the paginated dashboard variant (src/src/components/EmailDashboard.tsx,
  first component): `pagLoop` / `pagStart`;
* the dashboard variant embedded after the PHP code in
  src/public/api/index.php: `phpLoop` / `phpStart`;
* the variant in src/unnamed/part_000: `p0Loop` / `p0Start`;
* the recipient-list normalizers `parseEmails` of the paginated variant
  (`parseEmailsPag`) and of the index.php variant (`parseEmailsPhp`);
* the PHP endpoint's construction of the From address (`phpHandle`).

Modelling conventions:

* React state setters (`setResults`, `setStats`, ...) and refs
  (`currentIndexRef`, `isPausedRef`) become fields of an explicit state
  record threaded through the loop.
* `isPausedRef` is written by external UI handlers while the loop is
  suspended at an `await`.  The loop only ever *reads* it; each read is
  modelled by an oracle (`Env.pauseTop i` is the value the loop observes at
  the top-of-loop checkpoint of iteration `i`).  `Env.endJobDuringSend i`
  says whether the paginated variant's `endJob` handler fired while the
  send of iteration `i` was in flight.
* the `await`ed network call is modelled by an oracle `Env.outcome i`
  giving the HTTP-level outcome of iteration `i`; `sendEmail` is the
  faithful embedding of the `sendEmail` function over that outcome.
* wall-clock artefacts (`new Date().toLocaleTimeString()`) come from the
  oracle `Env.timeOf`.  The countdown / elapsed-time / `setCountdown`
  state is pure display and is not modelled; the post-send check
  `i < emailList.length - 1 && !isPausedRef.current` only gates the
  inter-item wait and touches none of the modelled state, so it does not
  appear in the embedding.
* `JSON.stringify(result.raw, null, 2)` is modelled by keeping the raw
  payload itself (type `RawOut`) instead of its string rendering.
* the interpreter records a trace: every successive value of the
  `results` state (`snaps`), the list of iteration indices for which a
  send was dispatched (`sends`), and every successive value of the
  `stats` state (`statsTrace`).
-/

namespace FlowDashboard

/-- Status of one per-recipient dispatch result, from the
`EmailStatus` union type of the dashboard sources. -/
inductive EmailStatus where
  | pending
  | sending
  | success
  | failed
deriving DecidableEq

/-- Whether a status is terminal (`success` or `failed`). -/
def isTerminal : EmailStatus → Bool
  | EmailStatus.success => true
  | EmailStatus.failed => true
  | _ => false

/-- Result of `JSON.parse` on the response text, as the dashboard builds it:
either the parsed JSON value (we retain its optional `message` field and an
opaque rest), or the fallback object with fields
`error = "Non-JSON response"` and `rawText = <body>` built in the catch of
the inner try. -/
inductive RespData where
  | parsed (message : Option String) (payload : String)
  | nonJson (rawText : String)
deriving DecidableEq

/-- The `raw` field a `sendEmail` result carries: either response data
(`data`, from `raw: data` or `error.raw`), or the caught error object
itself (`error.raw || error` when the error has no `raw`, i.e. a network
exception). -/
inductive RawOut where
  | data (d : RespData)
  | exn (message : Option String)
deriving DecidableEq

/-- One row of the dashboard's result log (`EmailResult` interface).
`rawResponse` keeps the raw payload in place of its JSON rendering. -/
structure EmailResult where
  index : Nat
  email : String
  status : EmailStatus
  time : Option String
  message : Option String
  rawResponse : Option RawOut
deriving DecidableEq

/-- The paginated variant's cumulative counters
(`useState \x7b success: 0, failed: 0, processed: 0 \x7d`). -/
structure Stats where
  success : Nat
  failed : Nat
  processed : Nat
deriving DecidableEq

/-- JavaScript `a || b` for an optional string `a`: the default is used when
the field is absent *or* the empty string (falsy). -/
def jsOr (m : Option String) (d : String) : String :=
  match m with
  | some s => if s = "" then d else s
  | none => d

/-- Body of an HTTP response: a JSON body (with its optional `message`
field and an opaque remainder) or a non-JSON text body. -/
inductive HttpBody where
  | jsonBody (message : Option String) (payload : String)
  | rawBody (text : String)
deriving DecidableEq

/-- Outcome of one `fetch` call: an HTTP response with a status code and a
body, or a thrown network error (DNS failure etc.) with its optional
message. -/
inductive NetOutcome where
  | resp (status : Nat) (body : HttpBody)
  | netErr (message : Option String)
deriving DecidableEq

/-- `response.ok` of the Fetch API: status in the 2xx range. -/
def respOk (status : Nat) : Bool :=
  decide (200 ≤ status) && decide (status ≤ 299)

/-- `data` as computed by `sendEmail`: `JSON.parse(text)` or the
Non-JSON-response fallback object. -/
def bodyData : HttpBody → RespData
  | HttpBody.jsonBody m p => RespData.parsed m p
  | HttpBody.rawBody t => RespData.nonJson t

/-- The `message` field of the parsed data (`data.message`); the fallback
object has no `message` field. -/
def dataMessage : RespData → Option String
  | RespData.parsed m _ => m
  | RespData.nonJson _ => none

/-- Return value of the dashboards' `sendEmail`. -/
structure SendRes where
  success : Bool
  message : Option String
  raw : RawOut
deriving DecidableEq

/-- Embedding of `sendEmail` (identical in all three dashboard variants):
parse the body, fall back to the Non-JSON object; on `!response.ok` throw
`\x7b message: data.message || "HTTP <status>", raw: data \x7d`, which the
surrounding catch converts to a failure result; a thrown network error
becomes a failure with `error.message || "Unknown error"`.  The function
is total: no exception escapes it. -/
def sendEmail (o : NetOutcome) : SendRes :=
  match o with
  | NetOutcome.resp status body =>
    let data := bodyData body
    if respOk status then
      { success := true, message := dataMessage data, raw := RawOut.data data }
    else
      { success := false
        message := some (jsOr (dataMessage data) ("HTTP " ++ toString status))
        raw := RawOut.data data }
  | NetOutcome.netErr m =>
    { success := false, message := some (jsOr m ("Unknown error")), raw := RawOut.exn m }

/-- `status` written into a row once the send resolved. -/
def terminalOf (success : Bool) : EmailStatus :=
  if success then EmailStatus.success else EmailStatus.failed

/-- Environment of one `startSending` invocation: the oracles for the
network, for the loop's reads of `isPausedRef`, for the paginated
variant's `endJob` interleaving, and for timestamps. -/
structure Env where
  outcome : Nat → NetOutcome
  pauseTop : Nat → Bool
  endJobDuringSend : Nat → Bool
  timeOf : Nat → String

/-- Reading a recipient's status off a result list whose rows carry the
1-based `index` field (recipient `k` has `index = k + 1`): the first row
with that index, else `pending` (a recipient without a row has not been
touched yet). -/
def statusOfRecipient (rs : List EmailResult) (k : Nat) : EmailStatus :=
  match rs.find? (fun r => r.index == k + 1) with
  | some r => r.status
  | none => EmailStatus.pending

/-- Reading a recipient's status off a result list indexed by position
(the index.php variant addresses rows by their list position `idx`). -/
def statusAtPos (rs : List EmailResult) (k : Nat) : EmailStatus :=
  match rs.get? k with
  | some r => r.status
  | none => EmailStatus.pending

/-- Number of rows currently in `sending` state. -/
def countSending (rs : List EmailResult) : Nat :=
  rs.countP (fun r => r.status == EmailStatus.sending)

/-- `list.map((x, idx) => f idx x)` with an explicit start index, the
index-aware callback form of JavaScript `Array.prototype.map`. -/
def mapWithIdx (f : Nat → α → β) : Nat → List α → List β
  | _, [] => []
  | k, x :: xs => f k x :: mapWithIdx f (k + 1) xs

/-!
### Paginated dashboard variant (src/src/components/EmailDashboard.tsx)

State: `results`, `stats`, `currentIndexRef`, `isRunning`, `isPaused`.
-/

/-- Campaign state of the paginated variant. -/
structure PagState where
  results : List EmailResult
  stats : Stats
  currentIndex : Nat
  isRunning : Bool
  isPaused : Bool

/-- Trace of one invocation of the paginated `startSending`:
final state, every successive value of `results` (`snaps`), the iteration
indices for which a send was dispatched (`sends`), and every successive
value of `stats`. -/
structure RunTrace where
  state : PagState
  snaps : List (List EmailResult)
  sends : List Nat
  statsTrace : List Stats

/-- Return value of the paginated `startSending`: the trace plus whether
the empty-recipients toast ("Missing Recipients") was raised. -/
structure PagStartOut where
  run : RunTrace
  validationError : Bool

/-- The row the paginated loop prepends when recipient `i` starts:
`index: i + 1`, status `sending`, message `"Sending..."`. -/
def pagSendingRow (emails : List String) (i : Nat) : EmailResult :=
  { index := i + 1
    email := emails.getD i ("")
    status := EmailStatus.sending
    time := none
    message := some ("Sending...")
    rawResponse := none }

/-- The paginated variant's `setStats` update after a send resolved:
exactly one of `success`/`failed` and `processed` are incremented. -/
def bumpStats (st : Stats) (res : SendRes) : Stats :=
  { success := st.success + (if res.success then 1 else 0)
    failed := st.failed + (if res.success then 0 else 1)
    processed := st.processed + 1 }

/-- The row update applied when the send of iteration `i` resolved
(identical in the paginated and part_000 variants): status
success/failed, timestamp, `result.message || "Done"`, raw payload. -/
def finishRow (env : Env) (i : Nat) (res : SendRes) (r : EmailResult) : EmailResult :=
  { r with
    status := terminalOf res.success
    time := some (env.timeOf i)
    message := some (jsOr res.message ("Done"))
    rawResponse := some res.raw }

/-- `setResults(prev => prev.map(r => r.index === currentId ? \x7b...\x7d : r))`:
update every row whose `index` field equals `i + 1`. -/
def finishRowsByIndex (env : Env) (i : Nat) (res : SendRes) (rs : List EmailResult) :
    List EmailResult :=
  rs.map (fun r => if r.index = i + 1 then finishRow env i res r else r)

/-- The writes `endJob` performs on the modelled state when it fires while
the send is in flight: `setIsRunning(false)`, `setIsPaused(false)`,
`currentIndexRef.current = 0` (it also clears `isPausedRef` and the
countdown, which are oracle- resp. display-modelled). -/
def pagAfterEndJob (env : Env) (i : Nat) (s : PagState) : PagState :=
  if env.endJobDuringSend i then
    { s with currentIndex := 0, isRunning := false, isPaused := false }
  else s

/-- The paginated dispatch loop, lines 215-265 of EmailDashboard.tsx.
`n` counts the remaining iterations (`emails.length - i`), so `n = 0` is
the loop's exit; the body is iteration `i`:
top-of-loop pause checkpoint (`currentIndexRef.current = i;
setIsRunning(true); setIsPaused(true); return`), prepend the sending row,
await `sendEmail`, update stats, update the row by its `index`, then
continue; after the last index: `currentIndexRef.current = 0;
setIsRunning(false); setIsPaused(false)`. -/
def pagLoop (env : Env) (emails : List String) : Nat → Nat → PagState → RunTrace
  | 0, _, s =>
    { state := { s with currentIndex := 0, isRunning := false, isPaused := false }
      snaps := [], sends := [], statsTrace := [] }
  | n + 1, i, s =>
    if env.pauseTop i then
      { state := { s with currentIndex := i, isRunning := true, isPaused := true }
        snaps := [], sends := [], statsTrace := [] }
    else
      let r1 := pagSendingRow emails i :: s.results
      let res := sendEmail (env.outcome i)
      let sE := pagAfterEndJob env i s
      let st1 := bumpStats s.stats res
      let r2 := finishRowsByIndex env i res r1
      let rest := pagLoop env emails n (i + 1) { sE with results := r2, stats := st1 }
      { state := rest.state
        snaps := r1 :: r2 :: rest.snaps
        sends := i :: rest.sends
        statsTrace := st1 :: rest.statsTrace }

/-- The paginated `startSending`, lines 197-272: empty normalized list →
destructive toast and return with nothing mutated; `currentIndexRef == 0`
→ fresh start (`setResults([]); setStats(\x7b0,0,0\x7d)`); then
`setIsRunning(true); setIsPaused(false); isPausedRef.current = false` and
the loop runs from `currentIndexRef.current`.  The initial `results`
value is recorded as the first snapshot. -/
def pagStart (env : Env) (emails : List String) (s : PagState) : PagStartOut :=
  if emails.length = 0 then
    { run := { state := s, snaps := [], sends := [], statsTrace := [] }
      validationError := true }
  else
    let s0 := if s.currentIndex = 0 then
        { s with results := [], stats := { success := 0, failed := 0, processed := 0 } }
      else s
    let s1 := { s0 with isRunning := true, isPaused := false }
    let t := pagLoop env emails (emails.length - s1.currentIndex) s1.currentIndex s1
    { run := { t with snaps := s1.results :: t.snaps }, validationError := false }

/-!
### Dashboard variant embedded in src/public/api/index.php (after the PHP code)

State: `results`, `currentIndexRef`, `isRunning`; rows are pre-filled as
`pending` and addressed by list position.
-/

/-- Campaign state of the index.php dashboard variant. -/
structure PhpState where
  results : List EmailResult
  currentIndex : Nat
  isRunning : Bool

/-- Trace of one invocation of the index.php variant's `startSending`. -/
structure PhpRun where
  state : PhpState
  snaps : List (List EmailResult)
  sends : List Nat

/-- Return value of the index.php variant's `startSending`; this variant
returns silently on an empty list (no toast), recorded by
`returnedEmpty`. -/
structure PhpStartOut where
  run : PhpRun
  returnedEmpty : Bool

/-- One freshly initialized row (`index: index + 1, email, status:
"pending", time: null, message: null`). -/
def phpPendingRowOf (idx : Nat) (e : String) : EmailResult :=
  { index := idx + 1
    email := e
    status := EmailStatus.pending
    time := none
    message := none
    rawResponse := none }

/-- `emails.map((email, index) => (\x7b index: index + 1, email, status:
"pending", ... \x7d))`: the initial result list. -/
def phpInitRows (emails : List String) : List EmailResult :=
  mapWithIdx phpPendingRowOf 0 emails

/-- `prev.map((r, idx) => idx === i ? f r : r)`: update the row at
position `i`. -/
def updateAtPos (i : Nat) (f : EmailResult → EmailResult) (rs : List EmailResult) :
    List EmailResult :=
  mapWithIdx (fun idx r => if idx = i then f r else r) 0 rs

/-- The index.php variant's dispatch loop, lines 220-255 of the file.
`n` counts remaining iterations; the body of iteration `i`: pause
checkpoint (`currentIndexRef.current = i; setIsRunning(false); return`),
mark position `i` `sending`, await `sendEmail`, update position `i` with
the terminal result; after the last index: `currentIndexRef.current = 0;
setIsRunning(false)`. -/
def phpLoop (env : Env) (emails : List String) : Nat → Nat → PhpState → PhpRun
  | 0, _, s =>
    { state := { s with currentIndex := 0, isRunning := false }
      snaps := [], sends := [] }
  | n + 1, i, s =>
    if env.pauseTop i then
      { state := { s with currentIndex := i, isRunning := false }
        snaps := [], sends := [] }
    else
      let r1 := updateAtPos i (fun r => { r with status := EmailStatus.sending }) s.results
      let res := sendEmail (env.outcome i)
      let r2 := updateAtPos i (finishRow env i res) r1
      let rest := phpLoop env emails n (i + 1) { s with results := r2 }
      { state := rest.state
        snaps := r1 :: r2 :: rest.snaps
        sends := i :: rest.sends }

/-- The index.php variant's `startSending`, lines 198-259: empty list →
bare `return`; `currentIndexRef.current === 0 || results.length === 0` →
pre-fill the pending rows; `setIsRunning(true)`; loop from
`currentIndexRef.current` (the `emailList` conditional picks `emails` in
both branches).  The initial `results` value is the first snapshot. -/
def phpStart (env : Env) (emails : List String) (s : PhpState) : PhpStartOut :=
  if emails.length = 0 then
    { run := { state := s, snaps := [], sends := [] }, returnedEmpty := true }
  else
    let s0 := if s.currentIndex = 0 ∨ s.results.length = 0 then
        { s with results := phpInitRows emails }
      else s
    let s1 := { s0 with isRunning := true }
    let t := phpLoop env emails (emails.length - s1.currentIndex) s1.currentIndex s1
    { run := { t with snaps := s1.results :: t.snaps }, returnedEmpty := false }

/-!
### Variant in src/unnamed/part_000

Like the paginated variant (rows prepended, addressed by the `index`
field) but without the stats counters and without the `isPaused` state:
the pause checkpoint sets `setIsRunning(false)`.  Its `startSending`
never resets `results` (the source comments that the pre-filling logic
was removed).
-/

/-- Campaign state of the part_000 variant. -/
structure P0State where
  results : List EmailResult
  currentIndex : Nat
  isRunning : Bool

/-- Trace of one invocation of the part_000 `startSending`. -/
structure P0Run where
  state : P0State
  snaps : List (List EmailResult)
  sends : List Nat

/-- Return value of the part_000 `startSending` (`validationError`: the
"Missing Recipients" toast was raised). -/
structure P0StartOut where
  run : P0Run
  validationError : Bool

/-- The row the part_000 loop prepends when recipient `i` starts
(message stays `null` in this variant). -/
def p0SendingRow (emails : List String) (i : Nat) : EmailResult :=
  { index := i + 1
    email := emails.getD i ("")
    status := EmailStatus.sending
    time := none
    message := none
    rawResponse := none }

/-- Combined effect of the two `setResults` calls of the part_000
loop's iteration `i` on the result list. -/
def p0StepResults (env : Env) (emails : List String) (i : Nat) (rs : List EmailResult) :
    List EmailResult :=
  finishRowsByIndex env i (sendEmail (env.outcome i)) (p0SendingRow emails i :: rs)

/-- The part_000 dispatch loop, lines 134-166 of part_000: pause
checkpoint (`currentIndexRef.current = i; setIsRunning(false); return`),
prepend the sending row, await `sendEmail`, update the row by its
`index`; after the last index: `currentIndexRef.current = 0;
setIsRunning(false)`. -/
def p0Loop (env : Env) (emails : List String) : Nat → Nat → P0State → P0Run
  | 0, _, s =>
    { state := { s with currentIndex := 0, isRunning := false }
      snaps := [], sends := [] }
  | n + 1, i, s =>
    if env.pauseTop i then
      { state := { s with currentIndex := i, isRunning := false }
        snaps := [], sends := [] }
    else
      let r1 := p0SendingRow emails i :: s.results
      let res := sendEmail (env.outcome i)
      let r2 := finishRowsByIndex env i res r1
      let rest := p0Loop env emails n (i + 1) { s with results := r2 }
      { state := rest.state
        snaps := r1 :: r2 :: rest.snaps
        sends := i :: rest.sends }

/-- The part_000 `startSending`, lines 120-171: empty list → destructive
toast and return with nothing mutated; otherwise `setIsRunning(true)`,
clear `isPausedRef`, loop from `currentIndexRef.current`; no result-list
reset on a fresh start. -/
def p0Start (env : Env) (emails : List String) (s : P0State) : P0StartOut :=
  if emails.length = 0 then
    { run := { state := s, snaps := [], sends := [] }, validationError := true }
  else
    let s1 := { s with isRunning := true }
    let t := p0Loop env emails (emails.length - s1.currentIndex) s1.currentIndex s1
    { run := { t with snaps := s1.results :: t.snaps }, validationError := false }

/-!
### Recipient list normalizers

Strings are modelled as `List Char`.  JavaScript's `split` on a regex of
delimiter classes with `+` differs from splitting on every single
delimiter (`List.splitOnP`) only by empty tokens between consecutive
delimiters, and the subsequent `filter(e => e && ...)` discards empty
tokens either way, so the composition is the same function.
`toLowerCase` is modelled at its ASCII core (`Char.toLower`), which is
all that email addresses exercise.
-/

/-- Whitespace as matched by the `\s` class and by `String.prototype.trim`
(ASCII part): space, tab, newline, carriage return, vertical tab, form
feed. -/
def isSpaceJS (c : Char) : Bool :=
  c = ' ' || c = '\t' || c = '\n' || c = '\r' || c = Char.ofNat 11 || c = Char.ofNat 12

/-- Delimiter class of the paginated variant's split regex
`[\n,;\s]+`. -/
def isDelimPag (c : Char) : Bool :=
  c = '\n' || c = ',' || c = ';' || isSpaceJS c

/-- Delimiter class of the index.php variant's split regex `[\n,]+`. -/
def isDelimPhp (c : Char) : Bool :=
  c = '\n' || c = ','

/-- `String.prototype.trim` (ASCII whitespace). -/
def trimJS (s : List Char) : List Char :=
  ((s.dropWhile isSpaceJS).reverse.dropWhile isSpaceJS).reverse

/-- `String.prototype.toLowerCase` (ASCII core). -/
def toLowerJS (s : List Char) : List Char :=
  s.map Char.toLower

/-- The paginated variant's `parseEmails` (EmailDashboard.tsx lines
121-123): split on `[\n,;\s]+`, trim + lowercase each candidate, keep
non-empty candidates containing `@`.  No deduplication. -/
def parseEmailsPag (text : List Char) : List (List Char) :=
  ((text.splitOnP isDelimPag).map (fun e => toLowerJS (trimJS e))).filter
    (fun e => !e.isEmpty && e.contains '@')

/-- The pre-`Set` list of the index.php variant's `parseEmails` (lines
153-158 of index.php's embedded component): split on `[\n,]+`, trim +
lowercase, keep non-empty candidates containing `@`. -/
def phpPreDedup (text : List Char) : List (List Char) :=
  ((text.splitOnP isDelimPhp).map (fun e => toLowerJS (trimJS e))).filter
    (fun e => !e.isEmpty && e.contains '@')

/-- Core of `[...new Set(l)]`: keep the first occurrence of each element
(first relative to the elements already `seen`), preserving insertion
order, the way JavaScript Set insertion behaves. -/
def dedupFirstAux [DecidableEq α] (seen : List α) : List α → List α
  | [] => []
  | x :: xs => if x ∈ seen then dedupFirstAux seen xs else x :: dedupFirstAux (x :: seen) xs

/-- `[...new Set(l)]`: spread of a JavaScript Set built from `l`. -/
def dedupFirst [DecidableEq α] (l : List α) : List α :=
  dedupFirstAux [] l

/-- The index.php variant's `parseEmails`: `[...new Set(emails)]` over
the filtered list. -/
def parseEmailsPhp (text : List Char) : List (List Char) :=
  dedupFirst (phpPreDedup text)

/-!
### The PHP mail endpoint (src/public/api/index.php, lines 1-50)
-/

/-- The JSON body the React form posts to the endpoint; every field is
optional (`$data['k'] ?? default`). -/
structure MailRequest where
  toAddr : Option (List Char)
  subject : Option (List Char)
  body : Option (List Char)
  fromName : Option (List Char)
  fromEmail : Option (List Char)

/-- What the endpoint hands to PHP `mail()` plus the From identity it
embedded in the headers. -/
structure MailCall where
  toAddr : List Char
  subject : List Char
  body : List Char
  fromName : List Char
  fromEmail : List Char

/-- `preg_replace('/^www\./', '', $host)`: strip one leading literal
`www.` (the pattern is anchored). -/
def stripWww (host : List Char) : List Char :=
  if host.take 4 = ('w' :: 'w' :: 'w' :: '.' :: []) then host.drop 4 else host

/-- Lines 27-41 of index.php: extract `to`, `subject`, `body`,
`fromName` with their defaults, and compute the From address as
`"no-reply@" . <HTTP_HOST with leading www. stripped>` — the request's
`fromEmail` field is never read.  `httpHost` is
`$_SERVER['HTTP_HOST'] ?? 'localhost'`. -/
def phpHandle (req : MailRequest) (httpHost : Option (List Char)) : MailCall :=
  { toAddr := req.toAddr.getD []
    subject := req.subject.getD ("Upsun Email Test".toList)
    body := req.body.getD ("No content provided".toList)
    fromName := req.fromName.getD ("Upsun User".toList)
    fromEmail := ("no-reply@".toList) ++ stripWww (httpHost.getD ("localhost".toList)) }

/-- Modelled from the spec: the spec never defines "syntactically valid
email address" beyond its §1/§3 criterion that address validation is
"contains an `@`"; the source code contains no validator at all.  We use
that minimal criterion. -/
def specValidEmail (e : List Char) : Bool :=
  e.contains '@'

/-!
### Characterization helpers and concrete fixtures

Pure description functions used to state what the interpreters compute,
plus the concrete environments and states that counterexamples and
witnesses evaluate.
-/

/-- The terminal row the paginated variant ends up with for iteration
`i`: the prepended sending row after the finishing update. -/
def pagRowTerminal (env : Env) (emails : List String) (i : Nat) : EmailResult :=
  finishRow env i (sendEmail (env.outcome i)) (pagSendingRow emails i)

/-- The terminal row the part_000 variant ends up with for iteration
`i`. -/
def p0RowTerminal (env : Env) (emails : List String) (i : Nat) : EmailResult :=
  finishRow env i (sendEmail (env.outcome i)) (p0SendingRow emails i)

/-- `f (j+n-1) :: ... :: f j :: []`: the rows for iterations
`j .. j+n-1`, most recently prepended first. -/
def rowsDesc (f : Nat → EmailResult) (j : Nat) : Nat → List EmailResult
  | 0 => []
  | n + 1 => f (j + n) :: rowsDesc f j n

/-- The stats value after iterations `j .. j+n-1` have resolved,
starting from `st`. -/
def statsAfter (env : Env) (st : Stats) (j : Nat) : Nat → Stats
  | 0 => st
  | n + 1 => statsAfter env (bumpStats st (sendEmail (env.outcome j))) (j + 1) n

/-- The successive stats values written during iterations
`j .. j+n-1`. -/
def statsTraceSeg (env : Env) (st : Stats) (j : Nat) : Nat → List Stats
  | 0 => []
  | n + 1 =>
    bumpStats st (sendEmail (env.outcome j)) ::
      statsTraceSeg env (bumpStats st (sendEmail (env.outcome j))) (j + 1) n

/-- Row `k` of the index.php variant's result list once iterations
`0 .. j-1` have resolved: terminal for `k < j`, still the pending row
otherwise. -/
def phpRowAt (env : Env) (emails : List String) (j k : Nat) : EmailResult :=
  if k < j then
    finishRow env k (sendEmail (env.outcome k)) (phpPendingRowOf k (emails.getD k ("")))
  else phpPendingRowOf k (emails.getD k (""))

/-- The index.php variant's result list once iterations `0 .. j-1` have
resolved (from a fresh pre-filled list). -/
def phpMidRows (env : Env) (emails : List String) (j : Nat) : List EmailResult :=
  mapWithIdx (fun k _ => phpRowAt env emails j k) 0 emails

/-- The per-dispatch counter update relation: `processed` goes up by one
and exactly one of `success`/`failed` goes up by one. -/
def statsStep (st st' : Stats) : Prop :=
  st'.processed = st.processed + 1 ∧
    ((st'.success = st.success + 1 ∧ st'.failed = st.failed) ∨
      (st'.success = st.success ∧ st'.failed = st.failed + 1))

/-- The counter invariant: everything processed is either a success or a
failure. -/
def statsInv (st : Stats) : Prop :=
  st.processed = st.success + st.failed

/-- The stats value right after `pagStart`'s init branch: zeroed on a
fresh start, untouched on a resume. -/
def pagInitStats (s : PagState) : Stats :=
  if s.currentIndex = 0 then { success := 0, failed := 0, processed := 0 } else s.stats

/-- A successful HTTP outcome: 200 with a JSON body. -/
def okOutcome : NetOutcome :=
  NetOutcome.resp 200 (HttpBody.jsonBody (some ("Email sent to a@x.com")) ("payload"))

/-- Environment in which every send succeeds and the pause flag is never
observed set. -/
def envNoPause : Env :=
  { outcome := fun _ => okOutcome
    pauseTop := fun _ => false
    endJobDuringSend := fun _ => false
    timeOf := fun _ => "t" }

/-- Environment in which the pause flag is observed set exactly at the
top-of-loop checkpoint of iteration `i`. -/
def envPauseAt (i : Nat) : Env :=
  { envNoPause with pauseTop := fun k => k == i }

/-- Environment in which `endJob` fires while the send of iteration `0`
is in flight (after which nobody sets the pause flag again, so all pause
reads stay `false`). -/
def envEndJobAt0 : Env :=
  { envNoPause with endJobDuringSend := fun k => k == 0 }

/-- Environment in which every response is HTTP 200 with a non-JSON
body. -/
def envNonJson200 : Env :=
  { envNoPause with
    outcome := fun _ => NetOutcome.resp 200 (HttpBody.rawBody ("<html>oops</html>")) }

/-- Idle paginated state: nothing run yet. -/
def pagIdle : PagState :=
  { results := []
    stats := { success := 0, failed := 0, processed := 0 }
    currentIndex := 0
    isRunning := false
    isPaused := false }

/-- Idle index.php-variant state. -/
def phpIdle : PhpState :=
  { results := [], currentIndex := 0, isRunning := false }

/-- Idle part_000-variant state. -/
def p0Idle : P0State :=
  { results := [], currentIndex := 0, isRunning := false }

/-- Two concrete recipients. -/
def twoEmails : List String :=
  ["a@x.com", "b@x.com"]

/-- A concrete mid-campaign paginated state: paused with `cursor = 1`
after recipient 0 completed. -/
def pagResume1 : PagState :=
  { results := [pagRowTerminal envNoPause twoEmails 0]
    stats := { success := 1, failed := 0, processed := 1 }
    currentIndex := 1
    isRunning := true
    isPaused := true }

/-- A concrete mid-campaign index.php-variant state with `cursor = 1`. -/
def phpResume1 : PhpState :=
  { results := phpMidRows envNoPause twoEmails 1
    currentIndex := 1
    isRunning := false }

/-- A concrete mail request carrying a syntactically valid `fromEmail`. -/
def reqC9 : MailRequest :=
  { toAddr := some ("u@y.com".toList)
    subject := none
    body := none
    fromName := none
    fromEmail := some ("alice@example.com".toList) }

/-- The first `setResults` of the index.php loop's iteration `i`:
mark position `i` as `sending`. -/
def phpMarkSending (i : Nat) (rs : List EmailResult) : List EmailResult :=
  updateAtPos i (fun r => { r with status := EmailStatus.sending }) rs

/-- The combined effect of both `setResults` calls of the index.php
loop's iteration `i`. -/
def phpStepResults (env : Env) (i : Nat) (rs : List EmailResult) : List EmailResult :=
  updateAtPos i (finishRow env i (sendEmail (env.outcome i))) (phpMarkSending i rs)

/-- Additional description functions used only in statements: the
`sending`-marked intermediate list of the index.php loop. -/
def phpSendingMid (env : Env) (emails : List String) (j : Nat) : List EmailResult :=
  phpMarkSending j (phpMidRows env emails j)

/-- The successive `results` values written by the index.php loop over
iterations `j .. j+n-1`. -/
def phpSnapsSeg (env : Env) (emails : List String) (j : Nat) : Nat → List (List EmailResult)
  | 0 => []
  | n + 1 =>
    phpSendingMid env emails j :: phpMidRows env emails (j + 1) :: phpSnapsSeg env emails (j + 1) n

/-- The successive `results` values written by a prepend-style loop
(paginated and part_000 variants) over iterations `j .. j+n-1`, starting
from `base`. -/
def snapsSegDesc (fSend fDone : Nat → EmailResult) (base : List EmailResult) (j : Nat) :
    Nat → List (List EmailResult)
  | 0 => []
  | n + 1 =>
    (fSend j :: base) :: (fDone j :: base) ::
      snapsSegDesc fSend fDone (fDone j :: base) (j + 1) n

/-- At most one row is in `sending` state. -/
def atMostOneSending (rs : List EmailResult) : Prop :=
  countSending rs ≤ 1

/-- Recipient `k+1` is `sending` only once recipient `k` is terminal
(rows addressed by their `index` field). -/
def seqOrdered (rs : List EmailResult) : Prop :=
  ∀ k, statusOfRecipient rs (k + 1) = EmailStatus.sending →
    isTerminal (statusOfRecipient rs k) = true

/-- Recipient `k+1` is `sending` only once recipient `k` is terminal
(rows addressed by list position). -/
def seqOrderedPos (rs : List EmailResult) : Prop :=
  ∀ k, statusAtPos rs (k + 1) = EmailStatus.sending →
    isTerminal (statusAtPos rs k) = true

/-!
## Theorems

First the generic helper lemmas, then per-claim theorems, counterexamples
and witnesses.
-/

theorem map_id_on {l : List α} {f : α → α} (h : ∀ x ∈ l, f x = x) : l.map f = l := by
  induction l with
  | nil => rfl
  | cons x xs ih =>
    simp only [List.map_cons, h x (List.mem_cons_self x xs)]
    rw [ih (fun y hy => h y (List.mem_cons_of_mem x hy))]

theorem mapWithIdx_length (f : Nat → α → β) (k : Nat) (l : List α) :
    (mapWithIdx f k l).length = l.length := by
  induction l generalizing k with
  | nil => rfl
  | cons x xs ih => simp [mapWithIdx, ih]

theorem mapWithIdx_get? (f : Nat → α → β) (k : Nat) (l : List α) (i : Nat) :
    (mapWithIdx f k l).get? i = (l.get? i).map (f (k + i)) := by
  induction l generalizing k i with
  | nil => simp [mapWithIdx]
  | cons x xs ih =>
    cases i with
    | zero => simp [mapWithIdx]
    | succ i =>
      simp only [mapWithIdx, List.get?_cons_succ, ih (k + 1) i]
      have : k + 1 + i = k + (i + 1) := by omega
      rw [this]

theorem mapWithIdx_mapWithIdx (f : Nat → β → γ) (g : Nat → α → β) (k : Nat) (l : List α) :
    mapWithIdx f k (mapWithIdx g k l) = mapWithIdx (fun i x => f i (g i x)) k l := by
  induction l generalizing k with
  | nil => rfl
  | cons x xs ih => simp [mapWithIdx, ih]

theorem mapWithIdx_congr {f g : Nat → α → β} (h : ∀ i x, f i x = g i x) (k : Nat) (l : List α) :
    mapWithIdx f k l = mapWithIdx g k l := by
  induction l generalizing k with
  | nil => rfl
  | cons x xs ih => simp [mapWithIdx, h, ih]

theorem mem_mapWithIdx {f : Nat → α → β} {k : Nat} {l : List α} {y : β} :
    y ∈ mapWithIdx f k l ↔ ∃ i x, l.get? i = some x ∧ y = f (k + i) x := by
  constructor
  · intro hy
    obtain ⟨n, hn⟩ := List.mem_iff_get?.mp hy
    rw [mapWithIdx_get? f k l n] at hn
    match hx : l.get? n with
    | none => rw [hx] at hn; simp at hn
    | some x =>
      rw [hx] at hn
      simp only [Option.map_some'] at hn
      exact ⟨n, x, hx, (Option.some.injEq _ _).mp hn.symm⟩
  · rintro ⟨i, x, hx, rfl⟩
    apply List.mem_iff_get?.mpr
    exact ⟨i, by rw [mapWithIdx_get? f k l i, hx]; rfl⟩

theorem dedupFirstAux_sublist [DecidableEq α] (seen : List α) (l : List α) :
    (dedupFirstAux seen l).Sublist l := by
  induction l generalizing seen with
  | nil => simp [dedupFirstAux]
  | cons x xs ih =>
    by_cases hx : x ∈ seen
    · simp only [dedupFirstAux, if_pos hx]
      exact (ih seen).cons x
    · simp only [dedupFirstAux, if_neg hx]
      exact (ih (x :: seen)).cons₂ x

theorem mem_dedupFirstAux [DecidableEq α] {seen : List α} {l : List α} {y : α} :
    y ∈ dedupFirstAux seen l ↔ y ∈ l ∧ y ∉ seen := by
  induction l generalizing seen with
  | nil => simp [dedupFirstAux]
  | cons x xs ih =>
    by_cases hx : x ∈ seen
    · rw [show dedupFirstAux seen (x :: xs) = dedupFirstAux seen xs from by
        simp [dedupFirstAux, hx]]
      rw [ih]
      constructor
      · rintro ⟨hy, hs⟩
        exact ⟨List.mem_cons_of_mem x hy, hs⟩
      · rintro ⟨hy, hs⟩
        rcases List.mem_cons.mp hy with rfl | hy2
        · exact absurd hx hs
        · exact ⟨hy2, hs⟩
    · rw [show dedupFirstAux seen (x :: xs) = x :: dedupFirstAux (x :: seen) xs from by
        simp [dedupFirstAux, hx]]
      constructor
      · intro hy
        rcases List.mem_cons.mp hy with rfl | hy2
        · exact ⟨List.mem_cons_self _ _, hx⟩
        · obtain ⟨h1, h2⟩ := ih.mp hy2
          exact ⟨List.mem_cons_of_mem x h1, fun hc => h2 (List.mem_cons_of_mem x hc)⟩
      · rintro ⟨hy, hs⟩
        rcases List.mem_cons.mp hy with rfl | hy2
        · exact List.mem_cons_self _ _
        · by_cases hyx : y = x
          · exact hyx ▸ List.mem_cons_self _ _
          · refine List.mem_cons_of_mem x (ih.mpr ⟨hy2, fun hc => ?_⟩)
            rcases List.mem_cons.mp hc with h | h
            · exact hyx h
            · exact hs h

theorem dedupFirstAux_nodup [DecidableEq α] (seen : List α) (l : List α) :
    (dedupFirstAux seen l).Nodup := by
  induction l generalizing seen with
  | nil => simp [dedupFirstAux]
  | cons x xs ih =>
    by_cases hx : x ∈ seen
    · simpa [dedupFirstAux, if_pos hx] using ih seen
    · simp only [dedupFirstAux, if_neg hx, List.nodup_cons]
      refine ⟨fun hc => ?_, ih (x :: seen)⟩
      exact (mem_dedupFirstAux.mp hc).2 (List.mem_cons_self x seen)

theorem dedupFirst_sublist [DecidableEq α] (l : List α) : (dedupFirst l).Sublist l :=
  dedupFirstAux_sublist [] l

theorem dedupFirst_nodup [DecidableEq α] (l : List α) : (dedupFirst l).Nodup :=
  dedupFirstAux_nodup [] l

theorem mem_dedupFirst [DecidableEq α] {l : List α} {y : α} : y ∈ dedupFirst l ↔ y ∈ l := by
  unfold dedupFirst
  rw [mem_dedupFirstAux]
  simp

theorem rowsDesc_succ (f : Nat → EmailResult) (j n : Nat) :
    rowsDesc f j (n + 1) = f (j + n) :: rowsDesc f j n := rfl

theorem rowsDesc_shift (f : Nat → EmailResult) (j n : Nat) :
    rowsDesc f (j + 1) n ++ (f j :: []) = rowsDesc f j (n + 1) := by
  induction n with
  | zero => rfl
  | succ n ih =>
    have harith : j + 1 + n = j + (n + 1) := by omega
    simp only [rowsDesc_succ, List.cons_append, ih, harith]

theorem rowsDesc_length (f : Nat → EmailResult) (j n : Nat) :
    (rowsDesc f j n).length = n := by
  induction n with
  | zero => rfl
  | succ n ih => simp [rowsDesc_succ, ih]

theorem mem_rowsDesc {f : Nat → EmailResult} {j n : Nat} {r : EmailResult} :
    r ∈ rowsDesc f j n ↔ ∃ i, j ≤ i ∧ i < j + n ∧ r = f i := by
  induction n with
  | zero =>
    simp only [rowsDesc, List.not_mem_nil, false_iff]
    rintro ⟨i, h1, h2, -⟩
    omega
  | succ n ih =>
    simp only [rowsDesc_succ, List.mem_cons, ih]
    constructor
    · rintro (rfl | ⟨i, h1, h2, rfl⟩)
      · exact ⟨j + n, by omega, by omega, rfl⟩
      · exact ⟨i, h1, by omega, rfl⟩
    · rintro ⟨i, h1, h2, rfl⟩
      by_cases hi : i = j + n
      · exact Or.inl (by rw [hi])
      · exact Or.inr ⟨i, h1, by omega, rfl⟩

theorem find?_rowsDesc (f : Nat → EmailResult) (hidx : ∀ i, (f i).index = i + 1)
    (j n k : Nat) :
    (rowsDesc f j n).find? (fun r => r.index == k + 1) =
      if j ≤ k ∧ k < j + n then some (f k) else none := by
  induction n with
  | zero =>
    rw [if_neg (by omega)]
    rfl
  | succ n ih =>
    rw [rowsDesc_succ, List.find?_cons]
    by_cases hk : j + n = k
    · have hb : ((f (j + n)).index == k + 1) = true := by
        simp [hidx, hk]
      rw [hb]
      rw [if_pos (by omega : j ≤ k ∧ k < j + (n + 1)), hk]
    · have hb : ((f (j + n)).index == k + 1) = false := by
        simp only [hidx, beq_eq_false_iff_ne, ne_eq]
        omega
      rw [hb, ih]
      by_cases hin : j ≤ k ∧ k < j + n
      · rw [if_pos hin, if_pos (by omega)]
      · rw [if_neg hin, if_neg (by omega)]

theorem sendEmail_resp_success (status : Nat) (body : HttpBody) :
    (sendEmail (NetOutcome.resp status body)).success = respOk status := by
  cases h : respOk status
  · simp [sendEmail, h]
  · simp [sendEmail, h]

theorem sendEmail_netErr_success (m : Option String) :
    (sendEmail (NetOutcome.netErr m)).success = false := rfl

theorem isTerminal_terminalOf (b : Bool) : isTerminal (terminalOf b) = true := by
  cases b <;> rfl

/-!
### Run characterizations of the paginated loop
-/

theorem pagLoop_exit (env : Env) (emails : List String) (i : Nat) (s : PagState) :
    pagLoop env emails 0 i s =
      { state := { s with currentIndex := 0, isRunning := false, isPaused := false }
        snaps := [], sends := [], statsTrace := [] } := rfl

theorem pagLoop_pauseStep (env : Env) (emails : List String) (n i : Nat) (s : PagState)
    (hp : env.pauseTop i = true) :
    pagLoop env emails (n + 1) i s =
      { state := { s with currentIndex := i, isRunning := true, isPaused := true }
        snaps := [], sends := [], statsTrace := [] } := by
  simp [pagLoop, hp]

theorem finishRowsByIndex_cons (env : Env) (i : Nat) (res : SendRes) (row : EmailResult)
    (base : List EmailResult) (hrow : row.index = i + 1)
    (hbase : ∀ r ∈ base, r.index ≠ i + 1) :
    finishRowsByIndex env i res (row :: base) = finishRow env i res row :: base := by
  unfold finishRowsByIndex
  rw [List.map_cons, if_pos hrow, map_id_on]
  intro r hr
  rw [if_neg (hbase r hr)]

theorem pagRowTerminal_index (env : Env) (emails : List String) (i : Nat) :
    (pagRowTerminal env emails i).index = i + 1 := rfl

theorem pagLoop_run_noPause (env : Env) (emails : List String) :
    ∀ (n j : Nat) (s : PagState),
      (∀ k, j ≤ k → env.pauseTop k = false) →
      (∀ r ∈ s.results, r.index ≤ j) →
      pagLoop env emails n j s =
        { state :=
            { results := rowsDesc (pagRowTerminal env emails) j n ++ s.results
              stats := statsAfter env s.stats j n
              currentIndex := 0, isRunning := false, isPaused := false }
          snaps := snapsSegDesc (pagSendingRow emails) (pagRowTerminal env emails) s.results j n
          sends := List.range' j n
          statsTrace := statsTraceSeg env s.stats j n } := by
  intro n
  induction n with
  | zero =>
    intro j s hp hb
    rw [pagLoop_exit]
    rfl
  | succ n ih =>
    intro j s hp hb
    have hp0 : env.pauseTop j = false := hp j (Nat.le_refl j)
    have hfin : finishRowsByIndex env j (sendEmail (env.outcome j))
        (pagSendingRow emails j :: s.results) =
        pagRowTerminal env emails j :: s.results := by
      apply finishRowsByIndex_cons
      · rfl
      · intro r hr
        have := hb r hr
        omega
    have hb2 : ∀ r ∈ pagRowTerminal env emails j :: s.results, r.index ≤ j + 1 := by
      intro r hr
      rcases List.mem_cons.mp hr with rfl | hr2
      · exact Nat.le_refl _
      · exact Nat.le_succ_of_le (hb r hr2)
    have hp2 : ∀ k, j + 1 ≤ k → env.pauseTop k = false := fun k hk => hp k (by omega)
    have ihapp := ih (j + 1)
      { pagAfterEndJob env j s with
        results := pagRowTerminal env emails j :: s.results
        stats := bumpStats s.stats (sendEmail (env.outcome j)) } hp2 hb2
    simp only [pagLoop, hp0, Bool.false_eq_true, if_false, hfin]
    rw [ihapp]
    simp only [RunTrace.mk.injEq, PagState.mk.injEq, and_true, true_and]
    rw [show (pagRowTerminal env emails j :: s.results) =
        ((pagRowTerminal env emails j :: []) ++ s.results) from rfl,
      ← List.append_assoc, rowsDesc_shift]
    exact ⟨⟨rfl, rfl⟩, rfl, rfl, rfl⟩

theorem pagLoop_goStep (env : Env) (emails : List String) (n i : Nat) (s : PagState)
    (hp : env.pauseTop i = false) :
    pagLoop env emails (n + 1) i s =
      { state := (pagLoop env emails n (i + 1)
          { pagAfterEndJob env i s with
            results := finishRowsByIndex env i (sendEmail (env.outcome i))
              (pagSendingRow emails i :: s.results)
            stats := bumpStats s.stats (sendEmail (env.outcome i)) }).state
        snaps := (pagSendingRow emails i :: s.results) ::
          finishRowsByIndex env i (sendEmail (env.outcome i))
            (pagSendingRow emails i :: s.results) ::
          (pagLoop env emails n (i + 1)
            { pagAfterEndJob env i s with
              results := finishRowsByIndex env i (sendEmail (env.outcome i))
                (pagSendingRow emails i :: s.results)
              stats := bumpStats s.stats (sendEmail (env.outcome i)) }).snaps
        sends := i :: (pagLoop env emails n (i + 1)
          { pagAfterEndJob env i s with
            results := finishRowsByIndex env i (sendEmail (env.outcome i))
              (pagSendingRow emails i :: s.results)
            stats := bumpStats s.stats (sendEmail (env.outcome i)) }).sends
        statsTrace := bumpStats s.stats (sendEmail (env.outcome i)) ::
          (pagLoop env emails n (i + 1)
            { pagAfterEndJob env i s with
              results := finishRowsByIndex env i (sendEmail (env.outcome i))
                (pagSendingRow emails i :: s.results)
              stats := bumpStats s.stats (sendEmail (env.outcome i)) }).statsTrace } := by
  conv =>
    lhs
    rw [pagLoop]
  rw [if_neg (by rw [hp]; exact Bool.false_ne_true)]

theorem pagLoop_run_pauseAt (env : Env) (emails : List String) :
    ∀ (n m j : Nat) (s : PagState),
      (∀ k, j ≤ k → k < j + n → env.pauseTop k = false) →
      env.pauseTop (j + n) = true →
      (∀ r ∈ s.results, r.index ≤ j) →
      pagLoop env emails (n + (m + 1)) j s =
        { state :=
            { results := rowsDesc (pagRowTerminal env emails) j n ++ s.results
              stats := statsAfter env s.stats j n
              currentIndex := j + n, isRunning := true, isPaused := true }
          snaps := snapsSegDesc (pagSendingRow emails) (pagRowTerminal env emails) s.results j n
          sends := List.range' j n
          statsTrace := statsTraceSeg env s.stats j n } := by
  intro n
  induction n with
  | zero =>
    intro m j s hp hpi hb
    rw [Nat.zero_add]
    rw [pagLoop_pauseStep env emails m j s (by simpa using hpi)]
    rfl
  | succ n ih =>
    intro m j s hp hpi hb
    have harr : (n + 1) + (m + 1) = (n + (m + 1)) + 1 := by omega
    rw [harr]
    have hp0 : env.pauseTop j = false := hp j (Nat.le_refl j) (by omega)
    have hfin : finishRowsByIndex env j (sendEmail (env.outcome j))
        (pagSendingRow emails j :: s.results) =
        pagRowTerminal env emails j :: s.results := by
      apply finishRowsByIndex_cons
      · rfl
      · intro r hr
        have := hb r hr
        omega
    have hb2 : ∀ r ∈ pagRowTerminal env emails j :: s.results, r.index ≤ j + 1 := by
      intro r hr
      rcases List.mem_cons.mp hr with rfl | hr2
      · exact Nat.le_refl _
      · exact Nat.le_succ_of_le (hb r hr2)
    have hp2 : ∀ k, j + 1 ≤ k → k < (j + 1) + n → env.pauseTop k = false :=
      fun k hk hk2 => hp k (by omega) (by omega)
    have hpi2 : env.pauseTop ((j + 1) + n) = true := by
      rw [show (j + 1) + n = j + (n + 1) from by omega]
      exact hpi
    have ihapp := ih m (j + 1)
      { pagAfterEndJob env j s with
        results := pagRowTerminal env emails j :: s.results
        stats := bumpStats s.stats (sendEmail (env.outcome j)) } hp2 hpi2 hb2
    rw [pagLoop_goStep env emails (n + (m + 1)) j s hp0, hfin, ihapp]
    simp only [RunTrace.mk.injEq, PagState.mk.injEq, and_true, true_and]
    rw [show (pagRowTerminal env emails j :: s.results) =
        ((pagRowTerminal env emails j :: []) ++ s.results) from rfl,
      ← List.append_assoc, rowsDesc_shift,
      show (j + 1) + n = j + (n + 1) from by omega]
    exact ⟨⟨rfl, rfl, rfl⟩, rfl, rfl, rfl⟩

theorem pagRowTerminal_status (env : Env) (emails : List String) (i : Nat) :
    (pagRowTerminal env emails i).status = terminalOf (sendEmail (env.outcome i)).success := rfl

theorem mem_pagRowsDesc_terminal {env : Env} {emails : List String} {j n : Nat}
    {r : EmailResult} (h : r ∈ rowsDesc (pagRowTerminal env emails) j n) :
    isTerminal r.status = true := by
  obtain ⟨i, -, -, rfl⟩ := mem_rowsDesc.mp h
  rw [pagRowTerminal_status]
  exact isTerminal_terminalOf _

theorem statusOfRecipient_pagRowsDesc (env : Env) (emails : List String) (j n k : Nat) :
    statusOfRecipient (rowsDesc (pagRowTerminal env emails) j n) k =
      if j ≤ k ∧ k < j + n then terminalOf (sendEmail (env.outcome k)).success
      else EmailStatus.pending := by
  unfold statusOfRecipient
  rw [find?_rowsDesc (pagRowTerminal env emails) (fun i => rfl) j n k]
  by_cases h : j ≤ k ∧ k < j + n
  · rw [if_pos h, if_pos h]
    rfl
  · rw [if_neg h, if_neg h]

theorem pagStart_fresh (env : Env) (emails : List String) (s : PagState)
    (hne : emails.length ≠ 0) (h0 : s.currentIndex = 0) :
    pagStart env emails s =
      { run :=
          { pagLoop env emails emails.length 0
              { results := []
                stats := { success := 0, failed := 0, processed := 0 }
                currentIndex := 0, isRunning := true, isPaused := false } with
            snaps := [] ::
              (pagLoop env emails emails.length 0
                { results := []
                  stats := { success := 0, failed := 0, processed := 0 }
                  currentIndex := 0, isRunning := true, isPaused := false }).snaps }
        validationError := false } := by
  unfold pagStart
  rw [if_neg hne]
  simp only [h0, eq_self_iff_true, if_true, Nat.sub_zero]

theorem pagStart_resume (env : Env) (emails : List String) (s : PagState)
    (hne : emails.length ≠ 0) (h0 : s.currentIndex ≠ 0) :
    pagStart env emails s =
      { run :=
          { pagLoop env emails (emails.length - s.currentIndex) s.currentIndex
              { s with isRunning := true, isPaused := false } with
            snaps := s.results ::
              (pagLoop env emails (emails.length - s.currentIndex) s.currentIndex
                { s with isRunning := true, isPaused := false }).snaps }
        validationError := false } := by
  unfold pagStart
  rw [if_neg hne]
  simp only [if_neg h0]

/-!
### Run characterizations of the index.php-variant loop
-/

theorem phpLoop_exit (env : Env) (emails : List String) (i : Nat) (s : PhpState) :
    phpLoop env emails 0 i s =
      { state := { s with currentIndex := 0, isRunning := false }
        snaps := [], sends := [] } := rfl

theorem phpLoop_pauseStep (env : Env) (emails : List String) (n i : Nat) (s : PhpState)
    (hp : env.pauseTop i = true) :
    phpLoop env emails (n + 1) i s =
      { state := { s with currentIndex := i, isRunning := false }
        snaps := [], sends := [] } := by
  simp [phpLoop, hp]

theorem phpLoop_goStep (env : Env) (emails : List String) (n i : Nat) (s : PhpState)
    (hp : env.pauseTop i = false) :
    phpLoop env emails (n + 1) i s =
      { state := (phpLoop env emails n (i + 1)
          { s with results := phpStepResults env i s.results }).state
        snaps := phpMarkSending i s.results ::
          phpStepResults env i s.results ::
          (phpLoop env emails n (i + 1)
            { s with results := phpStepResults env i s.results }).snaps
        sends := i :: (phpLoop env emails n (i + 1)
          { s with results := phpStepResults env i s.results }).sends } := by
  conv =>
    lhs
    rw [phpLoop]
  rw [if_neg (by rw [hp]; exact Bool.false_ne_true)]
  rfl

theorem phpInitRows_eq_midZero (env : Env) (emails : List String) :
    phpInitRows emails = phpMidRows env emails 0 := by
  apply List.ext_get?
  intro n
  rw [phpInitRows, phpMidRows, mapWithIdx_get?, mapWithIdx_get?]
  cases hx : emails.get? n with
  | none => rfl
  | some x =>
    simp only [Option.map_some']
    unfold phpRowAt
    rw [if_neg (by omega)]
    have hd : emails.getD (0 + n) ("") = x := by
      rw [List.getD_eq_get?, Nat.zero_add, hx]
      rfl
    rw [hd]

theorem phpRowAt_pending (env : Env) (emails : List String) (j : Nat) :
    phpRowAt env emails j j = phpPendingRowOf j (emails.getD j ("")) := by
  unfold phpRowAt
  rw [if_neg (show ¬ j < j from by omega)]

theorem phpRowAt_done (env : Env) (emails : List String) (j : Nat) :
    phpRowAt env emails (j + 1) j =
      finishRow env j (sendEmail (env.outcome j)) (phpPendingRowOf j (emails.getD j (""))) := by
  unfold phpRowAt
  rw [if_pos (show j < j + 1 from by omega)]

theorem phpStep_finish (env : Env) (emails : List String) (j : Nat) :
    phpStepResults env j (phpMidRows env emails j) = phpMidRows env emails (j + 1) := by
  apply List.ext_get?
  intro n
  unfold phpStepResults phpMarkSending updateAtPos phpMidRows
  simp only [mapWithIdx_get?, Nat.zero_add]
  cases hx : emails.get? n with
  | none => rfl
  | some x =>
    simp only [Option.map_some']
    by_cases h : n = j
    · subst h
      rw [if_pos rfl, if_pos rfl, phpRowAt_pending, phpRowAt_done]
      rfl
    · rw [if_neg h, if_neg h]
      unfold phpRowAt
      by_cases h2 : n < j
      · rw [if_pos h2, if_pos (show n < j + 1 from by omega)]
      · rw [if_neg h2, if_neg (show ¬ n < j + 1 from by omega)]

theorem phpLoop_run_noPause (env : Env) (emails : List String) :
    ∀ (n j : Nat) (s : PhpState),
      (∀ k, j ≤ k → env.pauseTop k = false) →
      s.results = phpMidRows env emails j →
      phpLoop env emails n j s =
        { state := { results := phpMidRows env emails (j + n)
                     currentIndex := 0, isRunning := false }
          snaps := phpSnapsSeg env emails j n
          sends := List.range' j n } := by
  intro n
  induction n with
  | zero =>
    intro j s hp hs
    rw [phpLoop_exit, hs]
    rfl
  | succ n ih =>
    intro j s hp hs
    have hp0 : env.pauseTop j = false := hp j (Nat.le_refl j)
    rw [phpLoop_goStep env emails n j s hp0, hs]
    rw [phpStep_finish env emails j]
    have hp2 : ∀ k, j + 1 ≤ k → env.pauseTop k = false := fun k hk => hp k (by omega)
    rw [ih (j + 1) { s with results := phpMidRows env emails (j + 1) } hp2 rfl]
    rw [show (j + 1) + n = j + (n + 1) from by omega]
    rfl

theorem phpLoop_run_pauseAt (env : Env) (emails : List String) :
    ∀ (n m j : Nat) (s : PhpState),
      (∀ k, j ≤ k → k < j + n → env.pauseTop k = false) →
      env.pauseTop (j + n) = true →
      s.results = phpMidRows env emails j →
      phpLoop env emails (n + (m + 1)) j s =
        { state := { results := phpMidRows env emails (j + n)
                     currentIndex := j + n, isRunning := false }
          snaps := phpSnapsSeg env emails j n
          sends := List.range' j n } := by
  intro n
  induction n with
  | zero =>
    intro m j s hp hpi hs
    rw [Nat.zero_add]
    rw [phpLoop_pauseStep env emails m j s (by simpa using hpi), hs]
    rfl
  | succ n ih =>
    intro m j s hp hpi hs
    have harr : (n + 1) + (m + 1) = (n + (m + 1)) + 1 := by omega
    rw [harr]
    have hp0 : env.pauseTop j = false := hp j (Nat.le_refl j) (by omega)
    rw [phpLoop_goStep env emails (n + (m + 1)) j s hp0, hs]
    rw [phpStep_finish env emails j]
    have hp2 : ∀ k, j + 1 ≤ k → k < (j + 1) + n → env.pauseTop k = false :=
      fun k hk hk2 => hp k (by omega) (by omega)
    have hpi2 : env.pauseTop ((j + 1) + n) = true := by
      rw [show (j + 1) + n = j + (n + 1) from by omega]
      exact hpi
    rw [ih m (j + 1) { s with results := phpMidRows env emails (j + 1) } hp2 hpi2 rfl]
    rw [show (j + 1) + n = j + (n + 1) from by omega]
    rfl

theorem phpStart_fresh (env : Env) (emails : List String) (s : PhpState)
    (hne : emails.length ≠ 0) (h0 : s.currentIndex = 0) :
    phpStart env emails s =
      { run :=
          { phpLoop env emails emails.length 0
              { results := phpInitRows emails, currentIndex := 0, isRunning := true } with
            snaps := phpInitRows emails ::
              (phpLoop env emails emails.length 0
                { results := phpInitRows emails, currentIndex := 0, isRunning := true }).snaps }
        returnedEmpty := false } := by
  unfold phpStart
  rw [if_neg hne]
  simp only [h0, eq_self_iff_true, true_or, if_true, Nat.sub_zero]

theorem phpStart_resume (env : Env) (emails : List String) (s : PhpState)
    (hne : emails.length ≠ 0) (h0 : s.currentIndex ≠ 0) (hr : s.results.length ≠ 0) :
    phpStart env emails s =
      { run :=
          { phpLoop env emails (emails.length - s.currentIndex) s.currentIndex
              { s with isRunning := true } with
            snaps := s.results ::
              (phpLoop env emails (emails.length - s.currentIndex) s.currentIndex
                { s with isRunning := true }).snaps }
        returnedEmpty := false } := by
  unfold phpStart
  rw [if_neg hne]
  rw [if_neg (by
    rintro (h | h)
    · exact h0 h
    · exact hr h)]

theorem phpMidRows_get? (env : Env) (emails : List String) (j k : Nat) :
    (phpMidRows env emails j).get? k =
      if k < emails.length then some (phpRowAt env emails j k) else none := by
  unfold phpMidRows
  rw [mapWithIdx_get?]
  by_cases h : k < emails.length
  · rw [if_pos h, List.get?_eq_get h]
    simp only [Option.map_some', Nat.zero_add]
  · rw [if_neg h, List.get?_eq_none.mpr (by omega)]
    rfl

theorem phpMidRows_length (env : Env) (emails : List String) (j : Nat) :
    (phpMidRows env emails j).length = emails.length := by
  unfold phpMidRows
  exact mapWithIdx_length _ 0 emails

theorem phpRowAt_index (env : Env) (emails : List String) (j k : Nat) :
    (phpRowAt env emails j k).index = k + 1 := by
  unfold phpRowAt
  by_cases h : k < j
  · rw [if_pos h]; rfl
  · rw [if_neg h]; rfl

theorem phpRowAt_status (env : Env) (emails : List String) (j k : Nat) :
    (phpRowAt env emails j k).status =
      if k < j then terminalOf (sendEmail (env.outcome k)).success else EmailStatus.pending := by
  unfold phpRowAt
  by_cases h : k < j
  · rw [if_pos h, if_pos h]; rfl
  · rw [if_neg h, if_neg h]; rfl

theorem statusAtPos_phpMidRows (env : Env) (emails : List String) (j k : Nat) :
    statusAtPos (phpMidRows env emails j) k =
      if k < emails.length then
        (if k < j then terminalOf (sendEmail (env.outcome k)).success else EmailStatus.pending)
      else EmailStatus.pending := by
  unfold statusAtPos
  rw [phpMidRows_get?]
  by_cases h : k < emails.length
  · rw [if_pos h, if_pos h]
    exact phpRowAt_status env emails j k
  · rw [if_neg h, if_neg h]

theorem phpSendingMid_get? (env : Env) (emails : List String) (j k : Nat) :
    (phpSendingMid env emails j).get? k =
      if k < emails.length then
        some (if k = j then { phpRowAt env emails j k with status := EmailStatus.sending }
          else phpRowAt env emails j k)
      else none := by
  unfold phpSendingMid phpMarkSending updateAtPos
  rw [mapWithIdx_get?, phpMidRows_get?]
  by_cases h : k < emails.length
  · rw [if_pos h, if_pos h]
    simp only [Option.map_some', Nat.zero_add]
  · rw [if_neg h, if_neg h]
    rfl

theorem statusAtPos_phpSendingMid (env : Env) (emails : List String) (j k : Nat) :
    statusAtPos (phpSendingMid env emails j) k =
      if k < emails.length then
        (if k = j then EmailStatus.sending
         else if k < j then terminalOf (sendEmail (env.outcome k)).success
         else EmailStatus.pending)
      else EmailStatus.pending := by
  unfold statusAtPos
  rw [phpSendingMid_get?]
  by_cases h : k < emails.length
  · rw [if_pos h, if_pos h]
    by_cases hk : k = j
    · rw [if_pos hk, if_pos hk]
    · rw [if_neg hk, if_neg hk]
      exact phpRowAt_status env emails j k
  · rw [if_neg h, if_neg h]

/-!
### Run characterizations of the part_000 loop
-/

theorem p0Loop_exit (env : Env) (emails : List String) (i : Nat) (s : P0State) :
    p0Loop env emails 0 i s =
      { state := { s with currentIndex := 0, isRunning := false }
        snaps := [], sends := [] } := rfl

theorem p0Loop_pauseStep (env : Env) (emails : List String) (n i : Nat) (s : P0State)
    (hp : env.pauseTop i = true) :
    p0Loop env emails (n + 1) i s =
      { state := { s with currentIndex := i, isRunning := false }
        snaps := [], sends := [] } := by
  simp [p0Loop, hp]

theorem p0Loop_goStep (env : Env) (emails : List String) (n i : Nat) (s : P0State)
    (hp : env.pauseTop i = false) :
    p0Loop env emails (n + 1) i s =
      { state := (p0Loop env emails n (i + 1)
          { s with results := p0StepResults env emails i s.results }).state
        snaps := (p0SendingRow emails i :: s.results) ::
          p0StepResults env emails i s.results ::
          (p0Loop env emails n (i + 1)
            { s with results := p0StepResults env emails i s.results }).snaps
        sends := i :: (p0Loop env emails n (i + 1)
          { s with results := p0StepResults env emails i s.results }).sends } := by
  conv =>
    lhs
    rw [p0Loop]
  rw [if_neg (by rw [hp]; exact Bool.false_ne_true)]
  rfl

theorem p0Loop_run_noPause (env : Env) (emails : List String) :
    ∀ (n j : Nat) (s : P0State),
      (∀ k, j ≤ k → env.pauseTop k = false) →
      (p0Loop env emails n j s).sends = List.range' j n ∧
      (p0Loop env emails n j s).state.currentIndex = 0 ∧
      (p0Loop env emails n j s).state.isRunning = false := by
  intro n
  induction n with
  | zero =>
    intro j s hp
    rw [p0Loop_exit]
    exact ⟨rfl, rfl, rfl⟩
  | succ n ih =>
    intro j s hp
    have hp0 : env.pauseTop j = false := hp j (Nat.le_refl j)
    rw [p0Loop_goStep env emails n j s hp0]
    have hp2 : ∀ k, j + 1 ≤ k → env.pauseTop k = false := fun k hk => hp k (by omega)
    obtain ⟨h1, h2, h3⟩ := ih (j + 1)
      { s with results := p0StepResults env emails j s.results } hp2
    refine ⟨?_, h2, h3⟩
    show j :: (p0Loop env emails n (j + 1)
      { s with results := p0StepResults env emails j s.results }).sends = List.range' j (n + 1)
    rw [h1]
    rfl

theorem p0Loop_run_pauseAt (env : Env) (emails : List String) :
    ∀ (n m j : Nat) (s : P0State),
      (∀ k, j ≤ k → k < j + n → env.pauseTop k = false) →
      env.pauseTop (j + n) = true →
      (p0Loop env emails (n + (m + 1)) j s).sends = List.range' j n ∧
      (p0Loop env emails (n + (m + 1)) j s).state.currentIndex = j + n ∧
      (p0Loop env emails (n + (m + 1)) j s).state.isRunning = false := by
  intro n
  induction n with
  | zero =>
    intro m j s hp hpi
    rw [Nat.zero_add, p0Loop_pauseStep env emails m j s (by simpa using hpi)]
    exact ⟨rfl, rfl, rfl⟩
  | succ n ih =>
    intro m j s hp hpi
    have harr : (n + 1) + (m + 1) = (n + (m + 1)) + 1 := by omega
    rw [harr]
    have hp0 : env.pauseTop j = false := hp j (Nat.le_refl j) (by omega)
    rw [p0Loop_goStep env emails (n + (m + 1)) j s hp0]
    have hp2 : ∀ k, j + 1 ≤ k → k < (j + 1) + n → env.pauseTop k = false :=
      fun k hk hk2 => hp k (by omega) (by omega)
    have hpi2 : env.pauseTop ((j + 1) + n) = true := by
      rw [show (j + 1) + n = j + (n + 1) from by omega]
      exact hpi
    obtain ⟨h1, h2, h3⟩ := ih m (j + 1)
      { s with results := p0StepResults env emails j s.results } hp2 hpi2
    refine ⟨?_, ?_, h3⟩
    · show j :: (p0Loop env emails (n + (m + 1)) (j + 1)
        { s with results := p0StepResults env emails j s.results }).sends =
        List.range' j (n + 1)
      rw [h1]
      rfl
    · show (p0Loop env emails (n + (m + 1)) (j + 1)
        { s with results := p0StepResults env emails j s.results }).state.currentIndex =
        j + (n + 1)
      rw [h2]
      omega

theorem p0Start_go (env : Env) (emails : List String) (s : P0State)
    (hne : emails.length ≠ 0) :
    p0Start env emails s =
      { run :=
          { p0Loop env emails (emails.length - s.currentIndex) s.currentIndex
              { s with isRunning := true } with
            snaps := s.results ::
              (p0Loop env emails (emails.length - s.currentIndex) s.currentIndex
                { s with isRunning := true }).snaps }
        validationError := false } := by
  unfold p0Start
  rw [if_neg hne]

/-!
### Status and counting helper lemmas
-/

theorem statusOfRecipient_cons_hit (r : EmailResult) (rs : List EmailResult) (k : Nat)
    (h : r.index = k + 1) : statusOfRecipient (r :: rs) k = r.status := by
  unfold statusOfRecipient
  rw [List.find?_cons, show (r.index == k + 1) = true from by simp [h]]

theorem statusOfRecipient_cons_miss (r : EmailResult) (rs : List EmailResult) (k : Nat)
    (h : r.index ≠ k + 1) : statusOfRecipient (r :: rs) k = statusOfRecipient rs k := by
  unfold statusOfRecipient
  rw [List.find?_cons, show (r.index == k + 1) = false from by simp [h]]

theorem statusOfRecipient_not_sending_of_terminal (rs : List EmailResult) (k : Nat)
    (h : ∀ r ∈ rs, isTerminal r.status = true) :
    statusOfRecipient rs k ≠ EmailStatus.sending := by
  intro hc
  unfold statusOfRecipient at hc
  cases hf : rs.find? (fun r => r.index == k + 1) with
  | none =>
    rw [hf] at hc
    exact EmailStatus.noConfusion hc
  | some r =>
    rw [hf] at hc
    change r.status = EmailStatus.sending at hc
    have ht := h r (List.mem_of_find?_eq_some hf)
    rw [hc] at ht
    exact Bool.noConfusion ht

theorem countSending_of_terminal (rs : List EmailResult)
    (h : ∀ r ∈ rs, isTerminal r.status = true) : countSending rs = 0 := by
  unfold countSending
  rw [List.countP_eq_zero]
  intro r hr hc
  have ht := h r hr
  simp only [beq_iff_eq] at hc
  rw [hc] at ht
  exact Bool.noConfusion ht

theorem pagSendingRow_index (emails : List String) (i : Nat) :
    (pagSendingRow emails i).index = i + 1 := rfl

theorem pagLoop_snaps_inv (env : Env) (emails : List String) :
    ∀ (n j : Nat) (s : PagState),
      (∀ r ∈ s.results, r.index ≤ j ∧ isTerminal r.status = true) →
      (∀ k, k < j → isTerminal (statusOfRecipient s.results k) = true) →
      ∀ snap ∈ (pagLoop env emails n j s).snaps, atMostOneSending snap ∧ seqOrdered snap := by
  intro n
  induction n with
  | zero =>
    intro j s hinv1 hinv2 snap hsnap
    rw [pagLoop_exit] at hsnap
    exact absurd hsnap (List.not_mem_nil snap)
  | succ n ih =>
    intro j s hinv1 hinv2 snap hsnap
    cases hp0 : env.pauseTop j with
    | true =>
      rw [pagLoop_pauseStep env emails n j s hp0] at hsnap
      exact absurd hsnap (List.not_mem_nil snap)
    | false =>
      rw [pagLoop_goStep env emails n j s hp0] at hsnap
      have hterm : ∀ r ∈ s.results, isTerminal r.status = true := fun r hr => (hinv1 r hr).2
      have hfin : finishRowsByIndex env j (sendEmail (env.outcome j))
          (pagSendingRow emails j :: s.results) =
          pagRowTerminal env emails j :: s.results := by
        apply finishRowsByIndex_cons
        · rfl
        · intro r hr
          have := (hinv1 r hr).1
          omega
      rw [hfin] at hsnap
      have hterm2 : ∀ r ∈ pagRowTerminal env emails j :: s.results,
          isTerminal r.status = true := by
        intro r hr
        rcases List.mem_cons.mp hr with rfl | hr2
        · exact mem_pagRowsDesc_terminal (n := 1) (j := j)
            (mem_rowsDesc.mpr ⟨j, Nat.le_refl j, by omega, rfl⟩)
        · exact hterm r hr2
      rcases List.mem_cons.mp hsnap with rfl | hsnap2
      · constructor
        · unfold atMostOneSending countSending
          rw [List.countP_cons, List.countP_eq_zero.mpr (by
            intro r hr hc
            simp only [beq_iff_eq] at hc
            have := hterm r hr
            rw [hc] at this
            exact Bool.noConfusion this)]
          simp [pagSendingRow]
        · intro k hk
          by_cases hkj : k + 1 = j
          · have hne : (pagSendingRow emails j).index ≠ k + 1 := by
              rw [pagSendingRow_index]
              omega
            rw [statusOfRecipient_cons_miss _ _ _ hne]
            exact hinv2 k (by omega)
          · have hne : (pagSendingRow emails j).index ≠ (k + 1) + 1 := by
              rw [pagSendingRow_index]
              omega
            rw [statusOfRecipient_cons_miss _ _ _ hne] at hk
            exact absurd hk (statusOfRecipient_not_sending_of_terminal _ _ hterm)
      · rcases List.mem_cons.mp hsnap2 with rfl | hsnap3
        · constructor
          · unfold atMostOneSending
            rw [countSending_of_terminal _ hterm2]
            omega
          · intro k hk
            exact absurd hk (statusOfRecipient_not_sending_of_terminal _ _ hterm2)
        · refine ih (j + 1) _ ?_ ?_ snap hsnap3
          · intro r hr
            rcases List.mem_cons.mp hr with rfl | hr2
            · exact ⟨Nat.le_refl _, hterm2 _ (List.mem_cons_self _ _)⟩
            · exact ⟨Nat.le_succ_of_le (hinv1 r hr2).1, hterm r hr2⟩
          · intro k hk
            by_cases hkj : k = j
            · subst hkj
              rw [statusOfRecipient_cons_hit _ _ _ rfl]
              exact hterm2 _ (List.mem_cons_self _ _)
            · have hne : (pagRowTerminal env emails j).index ≠ k + 1 := by
                rw [pagRowTerminal_index]
                omega
              rw [statusOfRecipient_cons_miss _ _ _ hne]
              exact hinv2 k (by omega)

theorem bumpStats_step (st : Stats) (res : SendRes) : statsStep st (bumpStats st res) := by
  unfold statsStep bumpStats
  cases h : res.success
  · exact ⟨rfl, Or.inr ⟨by simp, by simp⟩⟩
  · exact ⟨rfl, Or.inl ⟨by simp, by simp⟩⟩

theorem bumpStats_inv (st : Stats) (res : SendRes) (h : statsInv st) :
    statsInv (bumpStats st res) := by
  unfold statsInv at h ⊢
  unfold bumpStats
  cases hr : res.success <;> simp <;> omega

theorem pagLoop_stats_chain (env : Env) (emails : List String) :
    ∀ (n j : Nat) (s : PagState), statsInv s.stats →
      (∀ st ∈ (pagLoop env emails n j s).statsTrace, statsInv st) ∧
      List.Chain statsStep s.stats (pagLoop env emails n j s).statsTrace := by
  intro n
  induction n with
  | zero =>
    intro j s hinv
    rw [pagLoop_exit]
    exact ⟨fun st hst => absurd hst (List.not_mem_nil st), List.Chain.nil⟩
  | succ n ih =>
    intro j s hinv
    cases hp0 : env.pauseTop j with
    | true =>
      rw [pagLoop_pauseStep env emails n j s hp0]
      exact ⟨fun st hst => absurd hst (List.not_mem_nil st), List.Chain.nil⟩
    | false =>
      rw [pagLoop_goStep env emails n j s hp0]
      have hbinv : statsInv (bumpStats s.stats (sendEmail (env.outcome j))) :=
        bumpStats_inv _ _ hinv
      obtain ⟨h1, h2⟩ := ih (j + 1)
        { pagAfterEndJob env j s with
          results := finishRowsByIndex env j (sendEmail (env.outcome j))
            (pagSendingRow emails j :: s.results)
          stats := bumpStats s.stats (sendEmail (env.outcome j)) } hbinv
      constructor
      · intro st hst
        rcases List.mem_cons.mp hst with rfl | hst2
        · exact hbinv
        · exact h1 st hst2
      · rw [List.chain_cons]
        exact ⟨bumpStats_step s.stats (sendEmail (env.outcome j)), h2⟩

theorem terminalOf_ne_sending (b : Bool) : terminalOf b ≠ EmailStatus.sending := by
  cases b <;> intro h <;> exact EmailStatus.noConfusion h

theorem countSending_phpMidRows (env : Env) (emails : List String) (j : Nat) :
    countSending (phpMidRows env emails j) = 0 := by
  unfold countSending
  rw [List.countP_eq_zero]
  intro r hr hc
  simp only [beq_iff_eq] at hc
  obtain ⟨i, x, -, rfl⟩ := mem_mapWithIdx.mp hr
  rw [phpRowAt_status] at hc
  by_cases h : 0 + i < j
  · rw [if_pos h] at hc
    exact terminalOf_ne_sending _ hc
  · rw [if_neg h] at hc
    exact EmailStatus.noConfusion hc

theorem mapWithIdx_id_of_ne (i : Nat) (f : EmailResult → EmailResult) :
    ∀ (k : Nat) (rs : List EmailResult), (∀ idx, k ≤ idx → idx ≠ i) →
      mapWithIdx (fun idx r => if idx = i then f r else r) k rs = rs := by
  intro k rs
  induction rs generalizing k with
  | nil => intro h; rfl
  | cons r rs ih =>
    intro h
    unfold mapWithIdx
    rw [if_neg (h k (Nat.le_refl k)), ih (k + 1) (fun idx hidx => h idx (by omega))]

theorem countSending_markSending_le (i : Nat) :
    ∀ (k : Nat) (rs : List EmailResult), countSending rs = 0 →
      countSending (mapWithIdx
        (fun idx r => if idx = i then { r with status := EmailStatus.sending } else r) k rs) ≤ 1 := by
  intro k rs
  induction rs generalizing k with
  | nil =>
    intro h
    show countSending [] ≤ 1
    rw [show countSending [] = 0 from rfl]
    omega
  | cons r rs ih =>
    intro h0
    unfold countSending at h0 ⊢
    rw [List.countP_cons] at h0
    have hrs0 : List.countP (fun r => r.status == EmailStatus.sending) rs = 0 := by omega
    unfold mapWithIdx
    rw [List.countP_cons]
    by_cases hk : k = i
    · rw [if_pos hk]
      rw [mapWithIdx_id_of_ne i _ (k + 1) rs (fun idx hidx => by omega), hrs0]
      simp
    · rw [if_neg hk]
      have hhead : (if r.status == EmailStatus.sending then 1 else 0) = 0 := by omega
      rw [hhead]
      have := ih (k + 1) hrs0
      unfold countSending at this
      omega

theorem countSending_phpSendingMid (env : Env) (emails : List String) (j : Nat) :
    countSending (phpSendingMid env emails j) ≤ 1 := by
  unfold phpSendingMid phpMarkSending updateAtPos
  exact countSending_markSending_le j 0 (phpMidRows env emails j)
    (countSending_phpMidRows env emails j)

theorem seqOrderedPos_phpMidRows (env : Env) (emails : List String) (j : Nat) :
    seqOrderedPos (phpMidRows env emails j) := by
  intro k hk
  rw [statusAtPos_phpMidRows] at hk
  by_cases h1 : k + 1 < emails.length
  · rw [if_pos h1] at hk
    by_cases h2 : k + 1 < j
    · rw [if_pos h2] at hk
      exact absurd hk (terminalOf_ne_sending _)
    · rw [if_neg h2] at hk
      exact EmailStatus.noConfusion hk
  · rw [if_neg h1] at hk
    exact EmailStatus.noConfusion hk

theorem seqOrderedPos_phpSendingMid (env : Env) (emails : List String) (j : Nat) :
    seqOrderedPos (phpSendingMid env emails j) := by
  intro k hk
  rw [statusAtPos_phpSendingMid] at hk
  by_cases h1 : k + 1 < emails.length
  · rw [if_pos h1] at hk
    by_cases h2 : k + 1 = j
    · rw [statusAtPos_phpSendingMid, if_pos (by omega), if_neg (by omega),
        if_pos (by omega)]
      exact isTerminal_terminalOf _
    · rw [if_neg h2] at hk
      by_cases h3 : k + 1 < j
      · rw [if_pos h3] at hk
        exact absurd hk (terminalOf_ne_sending _)
      · rw [if_neg h3] at hk
        exact EmailStatus.noConfusion hk
  · rw [if_neg h1] at hk
    exact EmailStatus.noConfusion hk

theorem phpLoop_snaps_inv (env : Env) (emails : List String) :
    ∀ (n j : Nat) (s : PhpState), s.results = phpMidRows env emails j →
      ∀ snap ∈ (phpLoop env emails n j s).snaps, atMostOneSending snap ∧ seqOrderedPos snap := by
  intro n
  induction n with
  | zero =>
    intro j s hs snap hsnap
    rw [phpLoop_exit] at hsnap
    exact absurd hsnap (List.not_mem_nil snap)
  | succ n ih =>
    intro j s hs snap hsnap
    cases hp0 : env.pauseTop j with
    | true =>
      rw [phpLoop_pauseStep env emails n j s hp0] at hsnap
      exact absurd hsnap (List.not_mem_nil snap)
    | false =>
      rw [phpLoop_goStep env emails n j s hp0, hs] at hsnap
      rw [phpStep_finish env emails j] at hsnap
      rcases List.mem_cons.mp hsnap with rfl | hsnap2
      · exact ⟨countSending_phpSendingMid env emails j, seqOrderedPos_phpSendingMid env emails j⟩
      · rcases List.mem_cons.mp hsnap2 with rfl | hsnap3
        · refine ⟨?_, seqOrderedPos_phpMidRows env emails (j + 1)⟩
          unfold atMostOneSending
          rw [countSending_phpMidRows env emails (j + 1)]
          omega
        · exact ih (j + 1) { s with results := phpMidRows env emails (j + 1) } rfl snap hsnap3

/-!
### Normalizer lemmas: characters, trim, lowercase
-/

theorem charEq_of_toNat {c d : Char} (h : c.toNat = d.toNat) : c = d := by
  apply Char.ext
  apply UInt32.ext
  exact h

theorem toLower_eq (c : Char) :
    c.toLower = if c.toNat ≥ 65 ∧ c.toNat ≤ 90 then Char.ofNat (c.toNat + 32) else c := rfl

theorem toNat_ofNat_valid (n : Nat) (h : n.isValidChar) : (Char.ofNat n).toNat = n := by
  simp only [Char.ofNat, dif_pos h, Char.ofNatAux, Char.toNat]
  rfl

theorem toNat_toLower (c : Char) :
    c.toLower.toNat = if c.toNat ≥ 65 ∧ c.toNat ≤ 90 then c.toNat + 32 else c.toNat := by
  rw [toLower_eq]
  by_cases h : c.toNat ≥ 65 ∧ c.toNat ≤ 90
  · rw [if_pos h, if_pos h, toNat_ofNat_valid _ (Or.inl (by omega))]
  · rw [if_neg h, if_neg h]

theorem toLower_idem (c : Char) : c.toLower.toLower = c.toLower := by
  by_cases h : c.toNat ≥ 65 ∧ c.toNat ≤ 90
  · have hno : ¬(c.toLower.toNat ≥ 65 ∧ c.toLower.toNat ≤ 90) := by
      rw [toNat_toLower, if_pos h]
      omega
    rw [toLower_eq c.toLower, if_neg hno]
  · have hc : c.toLower = c := by rw [toLower_eq, if_neg h]
    rw [hc]
    exact hc

theorem isSpaceJS_iff (c : Char) :
    isSpaceJS c = true ↔ c.toNat = 32 ∨ c.toNat = 9 ∨ c.toNat = 10 ∨ c.toNat = 13 ∨
      c.toNat = 11 ∨ c.toNat = 12 := by
  unfold isSpaceJS
  simp only [Bool.or_eq_true, decide_eq_true_eq]
  constructor
  · rintro (((((rfl | rfl) | rfl) | rfl) | rfl) | rfl)
    · exact Or.inl rfl
    · exact Or.inr (Or.inl rfl)
    · exact Or.inr (Or.inr (Or.inl rfl))
    · exact Or.inr (Or.inr (Or.inr (Or.inl rfl)))
    · exact Or.inr (Or.inr (Or.inr (Or.inr (Or.inl (toNat_ofNat_valid 11 (Or.inl (by omega)))))))
    · exact Or.inr (Or.inr (Or.inr (Or.inr (Or.inr (toNat_ofNat_valid 12 (Or.inl (by omega)))))))
  · rintro (h | h | h | h | h | h)
    · exact Or.inl (Or.inl (Or.inl (Or.inl (Or.inl (charEq_of_toNat h)))))
    · exact Or.inl (Or.inl (Or.inl (Or.inl (Or.inr (charEq_of_toNat h)))))
    · exact Or.inl (Or.inl (Or.inl (Or.inr (charEq_of_toNat h))))
    · exact Or.inl (Or.inl (Or.inr (charEq_of_toNat h)))
    · exact Or.inl (Or.inr (charEq_of_toNat (by
        rw [h, toNat_ofNat_valid 11 (Or.inl (by omega))])))
    · exact Or.inr (charEq_of_toNat (by
        rw [h, toNat_ofNat_valid 12 (Or.inl (by omega))]))

theorem isSpaceJS_toLower (c : Char) : isSpaceJS c.toLower = isSpaceJS c := by
  by_cases h : c.toNat ≥ 65 ∧ c.toNat ≤ 90
  · have h1 : isSpaceJS c = false := by
      cases hb : isSpaceJS c
      · rfl
      · have := (isSpaceJS_iff c).mp hb
        omega
    have h2 : isSpaceJS c.toLower = false := by
      cases hb : isSpaceJS c.toLower
      · rfl
      · have := (isSpaceJS_iff c.toLower).mp hb
        rw [toNat_toLower, if_pos h] at this
        omega
    rw [h1, h2]
  · rw [show c.toLower = c from by rw [toLower_eq, if_neg h]]

theorem dropWhile_dropWhile (p : α → Bool) (l : List α) :
    List.dropWhile p (List.dropWhile p l) = List.dropWhile p l := by
  induction l with
  | nil => rfl
  | cons x xs ih =>
    rw [List.dropWhile_cons]
    by_cases h : p x = true
    · rw [if_pos h]
      exact ih
    · rw [if_neg h, List.dropWhile_cons, if_neg h]

theorem hd_dropWhile_false (p : α → Bool) :
    ∀ (l : List α) (y : α) (ys : List α), List.dropWhile p l = y :: ys → p y = false := by
  intro l
  induction l with
  | nil =>
    intro y ys h
    exact absurd h (by simp)
  | cons x xs ih =>
    intro y ys h
    rw [List.dropWhile_cons] at h
    by_cases hx : p x = true
    · rw [if_pos hx] at h
      exact ih y ys h
    · rw [if_neg hx] at h
      injection h with h1 h2
      subst h1
      exact Bool.eq_false_iff.mpr hx

theorem dropWhile_eq_self_of_hd (p : α → Bool) (l : List α)
    (h : ∀ y ys, l = y :: ys → p y = false) : List.dropWhile p l = l := by
  cases l with
  | nil => rfl
  | cons x xs =>
    rw [List.dropWhile_cons,
      if_neg (by rw [h x xs rfl]; exact Bool.false_ne_true)]

theorem trimBy_idem (p : α → Bool) (l : List α) :
    ((((((l.dropWhile p).reverse.dropWhile p).reverse).dropWhile p).reverse).dropWhile p).reverse
      = ((l.dropWhile p).reverse.dropWhile p).reverse := by
  have hpre : ((l.dropWhile p).reverse.dropWhile p).reverse <+: l.dropWhile p := by
    have hsuf : (l.dropWhile p).reverse.dropWhile p <:+ (l.dropWhile p).reverse :=
      List.dropWhile_suffix p
    have := List.reverse_prefix.mpr hsuf
    rwa [List.reverse_reverse] at this
  have hA : List.dropWhile p (((l.dropWhile p).reverse.dropWhile p).reverse) =
      ((l.dropWhile p).reverse.dropWhile p).reverse := by
    apply dropWhile_eq_self_of_hd
    intro y ys hcons
    obtain ⟨r, hr⟩ := hpre
    have ht1 : l.dropWhile p = y :: (ys ++ r) := by
      rw [← hr, hcons]
      rfl
    exact hd_dropWhile_false p l y (ys ++ r) ht1
  rw [hA, List.reverse_reverse, dropWhile_dropWhile]

theorem trimJS_idem (l : List Char) : trimJS (trimJS l) = trimJS l := by
  unfold trimJS
  exact trimBy_idem isSpaceJS l

theorem trimJS_toLowerJS (l : List Char) : trimJS (toLowerJS l) = toLowerJS (trimJS l) := by
  unfold trimJS toLowerJS
  have hpf : (isSpaceJS ∘ Char.toLower) = isSpaceJS := funext isSpaceJS_toLower
  rw [List.dropWhile_map, hpf, ← List.map_reverse, List.dropWhile_map, hpf,
    ← List.map_reverse]

theorem toLowerJS_idem (l : List Char) : toLowerJS (toLowerJS l) = toLowerJS l := by
  unfold toLowerJS
  rw [List.map_map]
  exact List.map_congr_left (fun c _ => toLower_idem c)

theorem mem_parse_pipeline {delim : Char → Bool} {text : List Char} {e : List Char}
    (he : e ∈ ((text.splitOnP delim).map (fun t => toLowerJS (trimJS t))).filter
      (fun t => !t.isEmpty && t.contains '@')) :
    e ≠ [] ∧ e.contains '@' = true ∧ toLowerJS e = e ∧ trimJS e = e := by
  obtain ⟨hmem, hpred⟩ := List.mem_filter.mp he
  rw [Bool.and_eq_true] at hpred
  obtain ⟨hne, hat⟩ := hpred
  obtain ⟨x, -, rfl⟩ := List.mem_map.mp hmem
  refine ⟨?_, hat, ?_, ?_⟩
  · intro hc
    rw [hc] at hne
    exact Bool.noConfusion hne
  · exact toLowerJS_idem (trimJS x)
  · rw [trimJS_toLowerJS, trimJS_idem]

/-!
## Claim theorems
-/

/-- Claim C7: a call to `startSending` whose normalized recipient sequence
is empty reports a validation failure (the destructive toast), creates no
result entries, dispatches nothing, mutates no campaign state, and — the
state being returned unchanged — an idle campaign stays idle.  Proved for
the two cited variants (paginated and part_000). -/
theorem C7_empty_start_noop (env envp : Env) (s : PagState) (p0s : P0State) :
    (pagStart env [] s).validationError = true ∧
    (pagStart env [] s).run.state = s ∧
    (pagStart env [] s).run.snaps = [] ∧
    (pagStart env [] s).run.sends = [] ∧
    (pagStart env [] s).run.statsTrace = [] ∧
    (p0Start envp [] p0s).validationError = true ∧
    (p0Start envp [] p0s).run.state = p0s ∧
    (p0Start envp [] p0s).run.snaps = [] ∧
    (p0Start envp [] p0s).run.sends = [] :=
  ⟨rfl, rfl, rfl, rfl, rfl, rfl, rfl, rfl, rfl⟩

/-- Claim C5 (evaluation at the failing input): with two recipients and
`endJob` firing while the send of recipient 0 is in flight (so the pause
flag is cleared and every subsequent read of it yields false), the loop
does NOT notice the forced-idle state: it proceeds to dispatch recipient 1
(`sends = [0, 1]`) and runs the whole campaign to completion, contradicting
the claim that it terminates without processing further items. -/
theorem C5_endJob_does_not_stop_loop :
    (pagStart envEndJobAt0 twoEmails pagIdle).run.sends = [0, 1] ∧
    (pagStart envEndJobAt0 twoEmails pagIdle).run.state.results.length = 2 ∧
    (pagStart envEndJobAt0 twoEmails pagIdle).run.state.currentIndex = 0 ∧
    (pagStart envEndJobAt0 twoEmails pagIdle).run.state.isRunning = false ∧
    (pagStart envEndJobAt0 twoEmails pagIdle).run.state.isPaused = false :=
  ⟨rfl, rfl, rfl, rfl, rfl⟩

/-- Claim C9 (counterexample): the request carries the syntactically valid
address `alice@example.com` in `fromEmail`, yet the endpoint's From address
is `no-reply@foo.com` (host `www.foo.com` with `www.` stripped) — the
endpoint does not use a valid supplied `fromEmail`, refuting the claim. -/
theorem C9_counterexample :
    specValidEmail ("alice@example.com".toList) = true ∧
    (phpHandle reqC9 (some ("www.foo.com".toList))).fromEmail = ("no-reply@foo.com".toList) ∧
    (phpHandle reqC9 (some ("www.foo.com".toList))).fromEmail ≠ ("alice@example.com".toList) := by
  refine ⟨by decide, by decide, by decide⟩

/-- Claim C9 (amended): the endpoint always substitutes
`no-reply@<request-host-with-leading-www-stripped>` as the From address,
regardless of the request's `fromEmail` (which it never reads): the From
address is the same for any two requests with the same host. -/
theorem C9_from_always_substituted (req req2 : MailRequest) (host : Option (List Char)) :
    (phpHandle req host).fromEmail =
      ("no-reply@".toList) ++ stripWww (host.getD ("localhost".toList)) ∧
    (phpHandle req host).fromEmail = (phpHandle req2 host).fromEmail :=
  ⟨rfl, rfl⟩

/-- Claim C4 (counterexample): the paginated variant's `parseEmails` does
not deduplicate: on input `"a@x a@x"` it returns `a@x` twice, so its
entries are not pairwise distinct. -/
theorem C4_counterexample :
    parseEmailsPag ("a@x a@x".toList) = ["a@x".toList, "a@x".toList] ∧
    ¬ (parseEmailsPag ("a@x a@x".toList)).Nodup := by
  exact ⟨by decide, by decide⟩

/-- Claim C4 (amended): for every input, both cited `parseEmails`
implementations return entries that are non-empty, contain `@`, are
lowercase and trimmed, in input order; the index.php variant's version
additionally deduplicates (its output is duplicate-free, is a sublist of —
hence in the order of — the pre-dedup token list, and keeps exactly the
elements of that list, i.e. the first occurrence of each); the paginated
variant's version performs no deduplication (see the counterexample). -/
theorem C4_normalize_amended (text : List Char) :
    (∀ e ∈ parseEmailsPag text,
      e ≠ [] ∧ e.contains '@' = true ∧ toLowerJS e = e ∧ trimJS e = e) ∧
    (∀ e ∈ parseEmailsPhp text,
      e ≠ [] ∧ e.contains '@' = true ∧ toLowerJS e = e ∧ trimJS e = e) ∧
    (parseEmailsPhp text).Nodup ∧
    (parseEmailsPhp text).Sublist (phpPreDedup text) ∧
    (∀ e, e ∈ parseEmailsPhp text ↔ e ∈ phpPreDedup text) := by
  refine ⟨?_, ?_, dedupFirst_nodup _, dedupFirst_sublist _, fun e => mem_dedupFirst⟩
  · intro e he
    exact mem_parse_pipeline he
  · intro e he
    exact mem_parse_pipeline (mem_dedupFirst.mp he)

/-- Claim C4 (witness): the amended theorem evaluated on a concrete
input. -/
theorem C4_witness :
    ("a@x".toList ≠ [] ∧ ("a@x".toList).contains '@' = true ∧
      toLowerJS ("a@x".toList) = "a@x".toList ∧ trimJS ("a@x".toList) = "a@x".toList) ∧
    (parseEmailsPhp ("A@x, a@x".toList)).Nodup :=
  ⟨(C4_normalize_amended ("A@x, a@x".toList)).1 ("a@x".toList) (by decide),
    (C4_normalize_amended ("A@x, a@x".toList)).2.2.1⟩

/-- Claim C1 (counterexample): in the paginated variant, when the pause
flag is observed at the top-of-loop checkpoint of index 1, the pause
branch persists `cursor = 1` and sets `paused = true` but sets
`running = true` (`setIsRunning(true)`), not `running = false` as the
claim states. -/
theorem C1_counterexample :
    (pagStart (envPauseAt 1) twoEmails pagIdle).run.state.currentIndex = 1 ∧
    (pagStart (envPauseAt 1) twoEmails pagIdle).run.state.isPaused = true ∧
    (pagStart (envPauseAt 1) twoEmails pagIdle).run.state.isRunning = true :=
  ⟨rfl, rfl, rfl⟩

/-- Claim C3 (counterexample): in the paginated variant, a call to
`startSending` with `cursor = 0` over two recipients where the pause flag
is observed immediately (before any send is dispatched, `sends = []`)
leaves the result list EMPTY — it was reset to `[]`, not initialized to
one pending entry per recipient as the claim states (N = 2 here). -/
theorem C3_counterexample :
    (pagStart (envPauseAt 0) twoEmails pagIdle).run.sends = [] ∧
    (pagStart (envPauseAt 0) twoEmails pagIdle).run.state.results = [] ∧
    (pagStart (envPauseAt 0) twoEmails pagIdle).run.state.stats =
      { success := 0, failed := 0, processed := 0 } :=
  ⟨rfl, rfl, rfl⟩

/-- Claim C6 (counterexample): an HTTP 200 response with a non-JSON body
is not recorded as `failed`: `sendEmail` treats any 2xx response as a
success (the parsed data is only the fallback object), and the recipient's
terminal status is `success`, refuting the claim that a non-JSON response
body is recorded as a failure. -/
theorem C6_counterexample :
    (sendEmail (NetOutcome.resp 200 (HttpBody.rawBody ("<html>oops</html>")))).success = true ∧
    statusOfRecipient (pagStart envNonJson200 twoEmails pagIdle).run.state.results 0 =
      EmailStatus.success :=
  ⟨rfl, rfl⟩

/-- Claim C2: for every non-paused run (every read of the pause flag is
false) over a non-empty normalized recipient list of length N, started
fresh (`cursor = 0`): after the final index completes, `cursor = 0`,
`running = false`, `paused = false` (the latter in the paginated variant,
which has a paused state), and exactly N result entries exist, each with
terminal status.  Proved for both cited variants. -/
theorem C2_completed_run (env : Env) (emails : List String) (s : PagState) (sp : PhpState)
    (hne : 0 < emails.length)
    (hp : ∀ k, env.pauseTop k = false)
    (hs : s.currentIndex = 0) (hsp : sp.currentIndex = 0) :
    ((pagStart env emails s).run.state.currentIndex = 0 ∧
     (pagStart env emails s).run.state.isRunning = false ∧
     (pagStart env emails s).run.state.isPaused = false ∧
     (pagStart env emails s).run.state.results.length = emails.length ∧
     (∀ r ∈ (pagStart env emails s).run.state.results, isTerminal r.status = true)) ∧
    ((phpStart env emails sp).run.state.currentIndex = 0 ∧
     (phpStart env emails sp).run.state.isRunning = false ∧
     (phpStart env emails sp).run.state.results.length = emails.length ∧
     (∀ r ∈ (phpStart env emails sp).run.state.results, isTerminal r.status = true)) := by
  have hne2 : emails.length ≠ 0 := by omega
  rw [pagStart_fresh env emails s hne2 hs,
    pagLoop_run_noPause env emails emails.length 0 _ (fun k _ => hp k)
      (fun r hr => absurd hr (List.not_mem_nil r))]
  rw [phpStart_fresh env emails sp hne2 hsp,
    phpLoop_run_noPause env emails emails.length 0 _ (fun k _ => hp k)
      (phpInitRows_eq_midZero env emails)]
  constructor
  · refine ⟨rfl, rfl, rfl, ?_, ?_⟩
    · show (rowsDesc (pagRowTerminal env emails) 0 emails.length ++
        ([] : List EmailResult)).length = emails.length
      rw [List.append_nil, rowsDesc_length]
    · intro r hr
      have hr2 : r ∈ rowsDesc (pagRowTerminal env emails) 0 emails.length ++
          ([] : List EmailResult) := hr
      rw [List.append_nil] at hr2
      exact mem_pagRowsDesc_terminal hr2
  · refine ⟨rfl, rfl, ?_, ?_⟩
    · show (phpMidRows env emails (0 + emails.length)).length = emails.length
      exact phpMidRows_length env emails _
    · intro r hr
      have hr2 : r ∈ phpMidRows env emails (0 + emails.length) := hr
      obtain ⟨i, x, hx, rfl⟩ := mem_mapWithIdx.mp hr2
      have hi : i < emails.length := by
        obtain ⟨h, -⟩ := List.get?_eq_some.mp hx
        exact h
      rw [phpRowAt_status, if_pos (by omega)]
      exact isTerminal_terminalOf _

/-- Claim C2 (witness): the theorem evaluated on two concrete recipients
in the all-success environment. -/
theorem C2_witness :
    (pagStart envNoPause twoEmails pagIdle).run.state.currentIndex = 0 ∧
    (pagStart envNoPause twoEmails pagIdle).run.state.results.length = 2 ∧
    (phpStart envNoPause twoEmails phpIdle).run.state.results.length = 2 := by
  have h := C2_completed_run envNoPause twoEmails pagIdle phpIdle (by decide)
    (fun k => rfl) rfl rfl
  exact ⟨h.1.1, h.1.2.2.2.1, h.2.2.2.1⟩

/-- Claim C6 (amended): in a fresh non-paused run of the paginated
variant, iteration always proceeds through every recipient
(`sends = range N`, no exception escapes the per-item boundary — the
embedded `sendEmail` is total), and every recipient's recorded row is the
terminal row determined by its outcome: its status is
`terminalOf (sendEmail outcome).success`.  A send fails exactly on HTTP
non-2xx or a thrown network error — both recorded as `failed` with the
best-effort message — while a 2xx response is recorded `success` even
when its body is non-JSON (in that case the raw payload stored is the
`error = "Non-JSON response", rawText` fallback object). -/
theorem C6_failure_recording_amended (env : Env) (emails : List String) (s : PagState)
    (hne : 0 < emails.length) (h0 : s.currentIndex = 0)
    (hp : ∀ k, env.pauseTop k = false) :
    (pagStart env emails s).run.sends = List.range' 0 emails.length ∧
    (∀ k, k < emails.length →
      (pagStart env emails s).run.state.results.find? (fun r => r.index == k + 1) =
        some (pagRowTerminal env emails k)) ∧
    (∀ k, k < emails.length →
      statusOfRecipient (pagStart env emails s).run.state.results k =
        terminalOf (sendEmail (env.outcome k)).success) ∧
    (∀ k st body, env.outcome k = NetOutcome.resp st body → respOk st = false →
      (sendEmail (env.outcome k)).success = false) ∧
    (∀ k m, env.outcome k = NetOutcome.netErr m →
      (sendEmail (env.outcome k)).success = false) ∧
    (∀ k t, k < emails.length → env.outcome k = NetOutcome.resp 200 (HttpBody.rawBody t) →
      statusOfRecipient (pagStart env emails s).run.state.results k = EmailStatus.success ∧
      (pagRowTerminal env emails k).rawResponse =
        some (RawOut.data (RespData.nonJson t))) := by
  have hne2 : emails.length ≠ 0 := by omega
  rw [pagStart_fresh env emails s hne2 h0,
    pagLoop_run_noPause env emails emails.length 0 _ (fun k _ => hp k)
      (fun r hr => absurd hr (List.not_mem_nil r))]
  have hres : ∀ k, k < emails.length →
      statusOfRecipient (rowsDesc (pagRowTerminal env emails) 0 emails.length ++
        ([] : List EmailResult)) k = terminalOf (sendEmail (env.outcome k)).success := by
    intro k hk
    rw [List.append_nil, statusOfRecipient_pagRowsDesc, if_pos (by omega)]
  refine ⟨rfl, ?_, ?_, ?_, ?_, ?_⟩
  · intro k hk
    show (rowsDesc (pagRowTerminal env emails) 0 emails.length ++
      ([] : List EmailResult)).find? (fun r => r.index == k + 1) =
      some (pagRowTerminal env emails k)
    rw [List.append_nil, find?_rowsDesc (pagRowTerminal env emails) (fun i => rfl),
      if_pos (by omega)]
  · intro k hk
    exact hres k hk
  · intro k st body hout hbad
    rw [hout, sendEmail_resp_success, hbad]
  · intro k m hout
    rw [hout, sendEmail_netErr_success]
  · intro k t hk hout
    constructor
    · have := hres k hk
      rw [hout] at this
      rw [this, sendEmail_resp_success]
      rfl
    · unfold pagRowTerminal finishRow
      rw [hout]
      rfl

/-- Claim C6 (witness): the amended theorem evaluated on two concrete
recipients. -/
theorem C6_witness :
    (pagStart envNoPause twoEmails pagIdle).run.sends = List.range' 0 2 ∧
    statusOfRecipient (pagStart envNoPause twoEmails pagIdle).run.state.results 0 =
      terminalOf (sendEmail (envNoPause.outcome 0)).success := by
  have h := C6_failure_recording_amended envNoPause twoEmails pagIdle (by decide)
    rfl (fun k => rfl)
  exact ⟨h.1, h.2.2.1 0 (by decide)⟩

/-- Claim C8: in every fresh run of the cited loops (arbitrary pause
schedule, arbitrary outcomes), every successive value of the result list
has at most one row in `sending` state, and recipient `i+1` is never
`sending` while recipient `i` is not yet terminal — in the paginated
variant reading recipients off the rows' `index` field, in the index.php
variant reading them off the row positions. -/
theorem C8_at_most_one_sending (env : Env) (emails : List String) (s : PagState)
    (sp : PhpState) (h0 : s.currentIndex = 0) (hsp : sp.currentIndex = 0) :
    (∀ snap ∈ (pagStart env emails s).run.snaps, atMostOneSending snap ∧ seqOrdered snap) ∧
    (∀ snap ∈ (phpStart env emails sp).run.snaps,
      atMostOneSending snap ∧ seqOrderedPos snap) := by
  by_cases hne : emails.length = 0
  · constructor
    · intro snap hsnap
      unfold pagStart at hsnap
      rw [if_pos hne] at hsnap
      exact absurd hsnap (List.not_mem_nil snap)
    · intro snap hsnap
      unfold phpStart at hsnap
      rw [if_pos hne] at hsnap
      exact absurd hsnap (List.not_mem_nil snap)
  · constructor
    · rw [pagStart_fresh env emails s hne h0]
      intro snap hsnap
      rcases List.mem_cons.mp hsnap with rfl | hsnap2
      · constructor
        · show countSending ([] : List EmailResult) ≤ 1
          rw [show countSending ([] : List EmailResult) = 0 from rfl]
          omega
        · intro k hk
          exact absurd hk (statusOfRecipient_not_sending_of_terminal [] (k + 1)
            (fun r hr => absurd hr (List.not_mem_nil r)))
      · exact pagLoop_snaps_inv env emails emails.length 0 _
          (fun r hr => absurd hr (List.not_mem_nil r))
          (fun k hk => absurd hk (Nat.not_lt_zero k)) snap hsnap2
    · rw [phpStart_fresh env emails sp hne hsp]
      intro snap hsnap
      rcases List.mem_cons.mp hsnap with rfl | hsnap2
      · rw [phpInitRows_eq_midZero env emails]
        refine ⟨?_, seqOrderedPos_phpMidRows env emails 0⟩
        unfold atMostOneSending
        rw [countSending_phpMidRows]
        omega
      · exact phpLoop_snaps_inv env emails emails.length 0 _
          (phpInitRows_eq_midZero env emails) snap hsnap2

/-- Claim C8 (witness): the theorem evaluated on two concrete recipients
with a pause observed at index 1. -/
theorem C8_witness :
    atMostOneSending ((pagStart (envPauseAt 1) twoEmails pagIdle).run.snaps.getD 0 []) ∧
    atMostOneSending ((phpStart (envPauseAt 1) twoEmails phpIdle).run.snaps.getD 1 []) := by
  have h := C8_at_most_one_sending (envPauseAt 1) twoEmails pagIdle phpIdle rfl rfl
  exact ⟨(h.1 _ (by decide)).1, (h.2 _ (by decide)).1⟩

/-- Claim C10: in the paginated variant, if the cumulative counters
satisfy `processed = success + failed` at the start, then after each
per-recipient result is recorded they still do, and each successive
recorded value increments `processed` by one and exactly one of
`success`/`failed` by one (`List.Chain statsStep` from the post-init
value). -/
theorem C10_stats_invariant (env : Env) (emails : List String) (s : PagState)
    (hinv : statsInv s.stats) :
    (∀ st ∈ (pagStart env emails s).run.statsTrace, statsInv st) ∧
    List.Chain statsStep (pagInitStats s) (pagStart env emails s).run.statsTrace := by
  by_cases hne : emails.length = 0
  · unfold pagStart
    rw [if_pos hne]
    exact ⟨fun st hst => absurd hst (List.not_mem_nil st), List.Chain.nil⟩
  · by_cases h0 : s.currentIndex = 0
    · rw [pagStart_fresh env emails s hne h0]
      have h := pagLoop_stats_chain env emails emails.length 0
        { results := []
          stats := { success := 0, failed := 0, processed := 0 }
          currentIndex := 0, isRunning := true, isPaused := false }
        (show (0 : Nat) = 0 + 0 from rfl)
      unfold pagInitStats
      rw [if_pos h0]
      exact h
    · rw [pagStart_resume env emails s hne h0]
      have h := pagLoop_stats_chain env emails (emails.length - s.currentIndex)
        s.currentIndex { s with isRunning := true, isPaused := false } hinv
      unfold pagInitStats
      rw [if_neg h0]
      exact h

/-- Claim C10 (witness): the theorem evaluated on two concrete
recipients. -/
theorem C10_witness :
    List.Chain statsStep (pagInitStats pagIdle)
      (pagStart envNoPause twoEmails pagIdle).run.statsTrace :=
  (C10_stats_invariant envNoPause twoEmails pagIdle rfl).2

theorem pagStart_resume_sends (env2 : Env) (emails : List String) (S : PagState)
    (hp2 : ∀ k, env2.pauseTop k = false) (hne2 : emails.length ≠ 0)
    (hidx : ∀ r ∈ S.results, r.index ≤ S.currentIndex) :
    (pagStart env2 emails S).run.sends =
      List.range' S.currentIndex (emails.length - S.currentIndex) := by
  by_cases h0 : S.currentIndex = 0
  · rw [pagStart_fresh env2 emails S hne2 h0,
      pagLoop_run_noPause env2 emails emails.length 0 _ (fun k _ => hp2 k)
        (fun r hr => absurd hr (List.not_mem_nil r)),
      h0, Nat.sub_zero]
  · rw [pagStart_resume env2 emails S hne2 h0]
    exact congrArg RunTrace.sends
      (pagLoop_run_noPause env2 emails (emails.length - S.currentIndex) S.currentIndex
        { S with isRunning := true, isPaused := false } (fun k _ => hp2 k) hidx)

theorem p0Start_resume_sends (env2 : Env) (emails : List String) (S : P0State)
    (hp2 : ∀ k, env2.pauseTop k = false) (hne2 : emails.length ≠ 0) :
    (p0Start env2 emails S).run.sends =
      List.range' S.currentIndex (emails.length - S.currentIndex) := by
  rw [p0Start_go env2 emails S hne2]
  exact (p0Loop_run_noPause env2 emails (emails.length - S.currentIndex) S.currentIndex
    { S with isRunning := true } (fun k _ => hp2 k)).1

/-- Claim C1 (amended): if the pause flag is observed at the top-of-loop
checkpoint of index `i` of a fresh run, the loop persists `cursor = i` and
returns without having started the item at index `i` (only `0..i-1` were
dispatched).  In the paginated variant it sets `paused = true` but leaves
`running = true` (not `false` as claimed — see the counterexample); the
part_000 variant sets `running = false`.  In the paginated variant
recipients `0..i-1` are terminal and `i..N-1` remain pending, and in both
variants a subsequent `startSending` with the pause flag clear resumes
exactly at `i`, dispatching exactly `i..N-1` and never re-sending
`0..i-1`. -/
theorem C1_pause_resume_amended (env env2 : Env) (emails : List String)
    (s : PagState) (p0s : P0State) (i : Nat)
    (hi : i < emails.length)
    (hbefore : ∀ k, k < i → env.pauseTop k = false)
    (hat : env.pauseTop i = true)
    (h0 : s.currentIndex = 0)
    (hp2 : ∀ k, env2.pauseTop k = false)
    (h0p : p0s.currentIndex = 0) :
    ((pagStart env emails s).run.state.currentIndex = i ∧
     (pagStart env emails s).run.state.isRunning = true ∧
     (pagStart env emails s).run.state.isPaused = true ∧
     (pagStart env emails s).run.sends = List.range' 0 i ∧
     (∀ k, k < i →
       isTerminal (statusOfRecipient (pagStart env emails s).run.state.results k) = true) ∧
     (∀ k, i ≤ k →
       statusOfRecipient (pagStart env emails s).run.state.results k = EmailStatus.pending) ∧
     (pagStart env2 emails (pagStart env emails s).run.state).run.sends =
       List.range' i (emails.length - i)) ∧
    ((p0Start env emails p0s).run.state.currentIndex = i ∧
     (p0Start env emails p0s).run.state.isRunning = false ∧
     (p0Start env emails p0s).run.sends = List.range' 0 i ∧
     (p0Start env2 emails (p0Start env emails p0s).run.state).run.sends =
       List.range' i (emails.length - i)) := by
  have hne2 : emails.length ≠ 0 := by omega
  have hb0 : ∀ k, 0 ≤ k → k < 0 + i → env.pauseTop k = false :=
    fun k _ hk => hbefore k (by omega)
  have hat0 : env.pauseTop (0 + i) = true := by
    rw [Nat.zero_add]
    exact hat
  -- the paginated variant, first run
  have hloop := pagLoop_run_pauseAt env emails i (emails.length - i - 1) 0
    { results := []
      stats := { success := 0, failed := 0, processed := 0 }
      currentIndex := 0, isRunning := true, isPaused := false }
    hb0 hat0 (fun r hr => absurd hr (List.not_mem_nil r))
  rw [show i + ((emails.length - i - 1) + 1) = emails.length from by omega] at hloop
  have hcur : (pagStart env emails s).run.state.currentIndex = 0 + i := by
    rw [pagStart_fresh env emails s hne2 h0]
    exact congrArg (fun t => t.state.currentIndex) hloop
  have hrunn : (pagStart env emails s).run.state.isRunning = true := by
    rw [pagStart_fresh env emails s hne2 h0]
    exact congrArg (fun t => t.state.isRunning) hloop
  have hpsd : (pagStart env emails s).run.state.isPaused = true := by
    rw [pagStart_fresh env emails s hne2 h0]
    exact congrArg (fun t => t.state.isPaused) hloop
  have hsends : (pagStart env emails s).run.sends = List.range' 0 i := by
    rw [pagStart_fresh env emails s hne2 h0]
    exact congrArg RunTrace.sends hloop
  have hresults : (pagStart env emails s).run.state.results =
      rowsDesc (pagRowTerminal env emails) 0 i ++ [] := by
    rw [pagStart_fresh env emails s hne2 h0]
    exact congrArg (fun t => t.state.results) hloop
  -- the paginated variant, resume run
  have hresume : (pagStart env2 emails (pagStart env emails s).run.state).run.sends =
      List.range' i (emails.length - i) := by
    rw [pagStart_resume_sends env2 emails _ hp2 hne2 (by
      intro r hr
      rw [hresults, List.append_nil] at hr
      obtain ⟨ii, -, hlt, rfl⟩ := mem_rowsDesc.mp hr
      rw [pagRowTerminal_index, hcur]
      omega)]
    rw [hcur]
    rw [Nat.zero_add]
  -- the part_000 variant, first run
  have hloop0 := p0Loop_run_pauseAt env emails i (emails.length - i - 1) 0
    { results := p0s.results, currentIndex := 0, isRunning := true } hb0 hat0
  rw [show i + ((emails.length - i - 1) + 1) = emails.length from by omega] at hloop0
  have hstart0 := p0Start_go env emails p0s hne2
  rw [h0p, Nat.sub_zero] at hstart0
  have hcur0 : (p0Start env emails p0s).run.state.currentIndex = 0 + i := by
    rw [hstart0]
    exact hloop0.2.1
  have hrun0 : (p0Start env emails p0s).run.state.isRunning = false := by
    rw [hstart0]
    exact hloop0.2.2
  have hsends0 : (p0Start env emails p0s).run.sends = List.range' 0 i := by
    rw [hstart0]
    exact hloop0.1
  have hresume0 : (p0Start env2 emails (p0Start env emails p0s).run.state).run.sends =
      List.range' i (emails.length - i) := by
    rw [p0Start_resume_sends env2 emails _ hp2 hne2, hcur0, Nat.zero_add]
  refine ⟨⟨by rw [hcur]; omega, hrunn, hpsd, hsends, ?_, ?_, hresume⟩,
    by rw [hcur0]; omega, hrun0, hsends0, hresume0⟩
  · intro k hk
    rw [hresults, List.append_nil, statusOfRecipient_pagRowsDesc,
      if_pos (by omega)]
    exact isTerminal_terminalOf _
  · intro k hk
    rw [hresults, List.append_nil, statusOfRecipient_pagRowsDesc,
      if_neg (by omega)]

/-- Claim C1 (witness): the amended theorem evaluated on two concrete
recipients with the pause observed at index 1. -/
theorem C1_witness :
    (pagStart (envPauseAt 1) twoEmails pagIdle).run.state.currentIndex = 1 ∧
    (pagStart (envPauseAt 1) twoEmails pagIdle).run.sends = List.range' 0 1 ∧
    (pagStart envNoPause twoEmails
      (pagStart (envPauseAt 1) twoEmails pagIdle).run.state).run.sends =
      List.range' 1 1 ∧
    (p0Start (envPauseAt 1) twoEmails p0Idle).run.state.isRunning = false := by
  have h := C1_pause_resume_amended (envPauseAt 1) envNoPause twoEmails pagIdle p0Idle 1
    (by decide)
    (fun k hk => by
      have hk0 : k = 0 := by omega
      subst hk0
      rfl)
    rfl rfl (fun k => rfl) rfl
  exact ⟨h.1.1, h.1.2.2.2.1, h.1.2.2.2.2.2.2, h.2.2.1⟩

/-- Claim C3 (amended): on a call with `cursor = 0`, before any send is
dispatched the paginated variant resets the result list to EMPTY (rows
are created only as recipients are dispatched) and zeroes the cumulative
counters, while the index.php variant initializes exactly N pending
entries, one per recipient in recipient order; in both variants a call
with `cursor > 0` continues from the existing cursor without discarding
prior results or counters.  The pre-dispatch state is observed through
runs whose very first pause-flag read is true, so that `sends = []`. -/
theorem C3_init_amended (env : Env) (emails : List String) (hne : 0 < emails.length) :
    (∀ s : PagState, s.currentIndex = 0 → env.pauseTop 0 = true →
      (pagStart env emails s).run.sends = [] ∧
      (pagStart env emails s).run.state.results = [] ∧
      (pagStart env emails s).run.state.stats =
        { success := 0, failed := 0, processed := 0 }) ∧
    (∀ s : PagState, s.currentIndex ≠ 0 → s.currentIndex < emails.length →
      env.pauseTop s.currentIndex = true →
      (pagStart env emails s).run.sends = [] ∧
      (pagStart env emails s).run.state.results = s.results ∧
      (pagStart env emails s).run.state.stats = s.stats) ∧
    (∀ sp : PhpState, sp.currentIndex = 0 → env.pauseTop 0 = true →
      (phpStart env emails sp).run.sends = [] ∧
      (phpStart env emails sp).run.state.results = phpInitRows emails) ∧
    ((phpInitRows emails).length = emails.length ∧
      ∀ k, (phpInitRows emails).get? k =
        if k < emails.length then some (phpPendingRowOf k (emails.getD k (""))) else none) ∧
    (∀ sp : PhpState, sp.currentIndex ≠ 0 → sp.results.length ≠ 0 →
      sp.currentIndex < emails.length → env.pauseTop sp.currentIndex = true →
      (phpStart env emails sp).run.sends = [] ∧
      (phpStart env emails sp).run.state.results = sp.results) := by
  have hne2 : emails.length ≠ 0 := by omega
  refine ⟨?_, ?_, ?_, ⟨mapWithIdx_length _ 0 emails, ?_⟩, ?_⟩
  · intro s hs0 hp00
    have hloopA := pagLoop_pauseStep env emails (emails.length - 1) 0
      { results := []
        stats := { success := 0, failed := 0, processed := 0 }
        currentIndex := 0, isRunning := true, isPaused := false } hp00
    rw [show (emails.length - 1) + 1 = emails.length from by omega] at hloopA
    refine ⟨?_, ?_, ?_⟩
    · rw [pagStart_fresh env emails s hne2 hs0]
      exact congrArg RunTrace.sends hloopA
    · rw [pagStart_fresh env emails s hne2 hs0]
      exact congrArg (fun t => t.state.results) hloopA
    · rw [pagStart_fresh env emails s hne2 hs0]
      exact congrArg (fun t => t.state.stats) hloopA
  · intro s hc0 hclt hpc
    have hloopB := pagLoop_pauseStep env emails (emails.length - s.currentIndex - 1)
      s.currentIndex { s with isRunning := true, isPaused := false } hpc
    rw [show (emails.length - s.currentIndex - 1) + 1 = emails.length - s.currentIndex
      from by omega] at hloopB
    refine ⟨?_, ?_, ?_⟩
    · rw [pagStart_resume env emails s hne2 hc0]
      exact congrArg RunTrace.sends hloopB
    · rw [pagStart_resume env emails s hne2 hc0]
      exact congrArg (fun t => t.state.results) hloopB
    · rw [pagStart_resume env emails s hne2 hc0]
      exact congrArg (fun t => t.state.stats) hloopB
  · intro sp hs0 hp00
    have hloopC := phpLoop_pauseStep env emails (emails.length - 1) 0
      { results := phpInitRows emails, currentIndex := 0, isRunning := true } hp00
    rw [show (emails.length - 1) + 1 = emails.length from by omega] at hloopC
    constructor
    · rw [phpStart_fresh env emails sp hne2 hs0]
      exact congrArg PhpRun.sends hloopC
    · rw [phpStart_fresh env emails sp hne2 hs0]
      exact congrArg (fun t => t.state.results) hloopC
  · intro k
    unfold phpInitRows
    rw [mapWithIdx_get?]
    by_cases h : k < emails.length
    · rw [if_pos h, List.get?_eq_get h]
      simp only [Option.map_some', Nat.zero_add]
      rw [show emails.getD k ("") = emails.get ⟨k, h⟩ from by
        rw [List.getD_eq_get?, List.get?_eq_get h]
        rfl]
    · rw [if_neg h, List.get?_eq_none.mpr (by omega)]
      rfl
  · intro sp hc0 hr0 hclt hpc
    have hloopE := phpLoop_pauseStep env emails (emails.length - sp.currentIndex - 1)
      sp.currentIndex { sp with isRunning := true } hpc
    rw [show (emails.length - sp.currentIndex - 1) + 1 = emails.length - sp.currentIndex
      from by omega] at hloopE
    constructor
    · rw [phpStart_resume env emails sp hne2 hc0 hr0]
      exact congrArg PhpRun.sends hloopE
    · rw [phpStart_resume env emails sp hne2 hc0 hr0]
      exact congrArg (fun t => t.state.results) hloopE

/-- Claim C3 (witness): the amended theorem evaluated on two concrete
recipients with concrete fresh and mid-campaign states. -/
theorem C3_witness :
    (pagStart (envPauseAt 0) twoEmails pagIdle).run.state.results = [] ∧
    (phpStart (envPauseAt 0) twoEmails phpIdle).run.state.results = phpInitRows twoEmails ∧
    (pagStart (envPauseAt 1) twoEmails pagResume1).run.state.results = pagResume1.results ∧
    (phpStart (envPauseAt 1) twoEmails phpResume1).run.state.results = phpResume1.results := by
  have h0 := C3_init_amended (envPauseAt 0) twoEmails (by decide)
  have h1 := C3_init_amended (envPauseAt 1) twoEmails (by decide)
  exact ⟨(h0.1 pagIdle rfl rfl).2.1,
    (h0.2.2.1 phpIdle rfl rfl).2,
    (h1.2.1 pagResume1 (by decide) (by decide) rfl).2.1,
    (h1.2.2.2.2 phpResume1 (by decide) (by decide) (by decide) rfl).2⟩

end FlowDashboard
